import Mathlib

/-!
Verification of the winit_tray repository's core components against its
specification: the identifier map, the Windows menu-tree builder and
destroyer, the native window-callback dispatchers for the tray and popup
backends, the manager event queue, object-id allocation, and the panic
capture mechanism of two-phase window construction.

All definitions are shallow embeddings of the Rust sources under
winit_tray_windows/src, winit_tray_linux/src, winit_tray_macos/src and
src/lib.rs.  Machine integers (u32) are modelled as Nat with explicit
reduction modulo 2^32 where the source performs wrapping arithmetic.
-/


/-- The modulus of Rust u32 arithmetic, 2^32. -/
def u32size : Nat := 4294967296

/-- Embeds `IdMap<T>` from winit_tray_windows/src/menu.rs: an append-only
vector of user ids indexed by a 1-based Windows menu command code. -/
structure IdMap (T : Type) where
  ids : List T

/-- Embeds `IdMap::new`. -/
def IdMap.new (T : Type) : IdMap T := ⟨[]⟩

/-- Embeds `IdMap::insert`: `let index = self.ids.len() as u32 + 1;
self.ids.push(id); index`.  `as u32` truncates the length and `+ 1` wraps,
hence the explicit modulus.  Returns the updated map and the code. -/
def IdMap.insert (m : IdMap T) (id : T) : IdMap T × Nat :=
  let index := (m.ids.length % u32size + 1) % u32size
  (⟨m.ids ++ [id]⟩, index)

/-- Embeds `IdMap::get`: code 0 is reserved ("no selection"); otherwise the
stored id at position `index - 1`, if any, is cloned. -/
def IdMap.get (m : IdMap T) (index : Nat) : Option T :=
  if index = 0 then none
  else m.ids.get? (index - 1)

/-- Inserts a whole sequence of ids, returning the final map and the list of
codes that `insert` returned, in order. -/
def IdMap.insertAll (m : IdMap T) (xs : List T) : IdMap T × List Nat :=
  match xs with
  | [] => (m, [])
  | x :: rest =>
    let r1 := m.insert x
    let r2 := r1.1.insertAll rest
    (r2.1, r1.2 :: r2.2)

/-- The round-trip property of a fresh `IdMap` after inserting the sequence
`xs`: the returned codes are exactly 1, 2, ..., n (strictly increasing,
starting at 1), looking up the code returned for the j-th insertion yields
that inserted value, and codes 0 and n+1 yield nothing. -/
def IdMapRoundtrip (T : Type) (xs : List T) : Prop :=
  ((IdMap.new T).insertAll xs).2 = List.range' 1 xs.length ∧
  (∀ j, j < xs.length →
    ((IdMap.new T).insertAll xs).1.get (((IdMap.new T).insertAll xs).2.getD j 0)
      = xs.get? j) ∧
  ((IdMap.new T).insertAll xs).1.get 0 = none ∧
  ((IdMap.new T).insertAll xs).1.get (xs.length + 1) = none

/-- Embeds `MenuEntry<T>` from winit_tray_core/src/menu.rs with the
`MenuItem` and `Submenu` struct fields inlined into the constructors.
The `icon` field abstracts `Option<Icon>` together with the success of
`icon_to_hbitmap` as a single presence flag, since the bitmap contents
play no role in menu construction logic. -/
inductive MenuEntry (T : Type) where
  | item (id : T) (label : String) (enabled : Bool) (checked : Option Bool) (icon : Bool)
  | submenu (label : String) (enabled : Bool) (items : List (MenuEntry T))
  | separator

/-- A native Win32 menu entry as produced by the `AppendMenuW` calls of
winit_tray_windows/src/menu.rs: a string item carrying a command code and
the MF_GRAYED/MF_CHECKED flags plus an optional bitmap, a separator, or an
MF_POPUP entry whose id field holds the child menu handle. -/
inductive NativeMenuItem where
  | stringItem (wID : Nat) (grayed : Bool) (checked : Bool) (label : String) (bitmap : Bool)
  | separator
  | popup (child : Nat) (grayed : Bool) (label : String)

/-- The state of the native menu allocator: handles are modelled as the
naturals 1, 2, ... (0 is the null HMENU); `menus` associates each allocated
handle with its current item list. -/
structure MenuHeap where
  next : Nat
  menus : List (Nat × List NativeMenuItem)

/-- A heap with no menus allocated yet; the first handle handed out is 1,
so the null handle 0 is never allocated. -/
def MenuHeap.empty : MenuHeap := { next := 1, menus := [] }

/-- Embeds `CreatePopupMenu`: allocates a fresh, empty native menu and
returns its (non-null) handle. -/
def CreatePopupMenu (h : MenuHeap) : Nat × MenuHeap :=
  (h.next, { next := h.next + 1, menus := h.menus ++ [(h.next, [])] })

/-- Embeds `AppendMenuW`: appends one native item to the menu `hmenu`. -/
def MenuHeap.appendItem (h : MenuHeap) (hmenu : Nat) (it : NativeMenuItem) : MenuHeap :=
  { h with menus := h.menus.map fun p => if p.1 = hmenu then (p.1, p.2 ++ [it]) else p }

/-- The current item list of the menu `hmenu` ([] for an unallocated handle). -/
def MenuHeap.itemsOf (h : MenuHeap) (hmenu : Nat) : List NativeMenuItem :=
  match h.menus.find? (fun p => p.1 = hmenu) with
  | some p => p.2
  | none => []

/-- Embeds `add_menu_item` from winit_tray_windows/src/menu.rs: computes the
MF_GRAYED/MF_CHECKED flags, inserts the user id into the `IdMap` to obtain
the command code, and appends the native string item (with its bitmap when
an icon is present and converts). -/
def add_menu_item (hmenu : Nat) (id : T) (label : String) (enabled : Bool)
    (checked : Option Bool) (icon : Bool) (id_map : IdMap T) (heap : MenuHeap) :
    IdMap T × MenuHeap :=
  let r := id_map.insert id
  (r.1, heap.appendItem hmenu (.stringItem r.2 (!enabled) (checked == some true) label icon))

mutual

/-- Embeds `build_popup_menu` from winit_tray_windows/src/menu.rs: creates a
native popup menu unconditionally and appends one native entry per
`MenuEntry`.  (The source's `is_null` early return is dead in this model
because `CreatePopupMenu` never returns the null handle 0.)  Returns the
new menu handle together with the updated id map and heap. -/
def build_popup_menu (items : List (MenuEntry T)) (id_map : IdMap T)
    (heap : MenuHeap) : Nat × IdMap T × MenuHeap :=
  let c := CreatePopupMenu heap
  let r := buildEntries c.1 items id_map c.2
  (c.1, r.1, r.2)
termination_by (sizeOf items, 1)

/-- The `for item in items` loop body of `build_popup_menu`, iterated over
the remaining entries. -/
def buildEntries (hmenu : Nat) (items : List (MenuEntry T)) (id_map : IdMap T)
    (heap : MenuHeap) : IdMap T × MenuHeap :=
  match items with
  | [] => (id_map, heap)
  | e :: rest =>
    let r := buildEntry hmenu e id_map heap
    buildEntries hmenu rest r.1 r.2
termination_by (sizeOf items, 0)

/-- One iteration of the `build_popup_menu` loop: dispatches on the entry
kind.  The submenu arm embeds `add_submenu`: it recursively builds the child
menu, then appends an MF_POPUP entry holding the child handle (the source's
null check on the child handle is again dead). -/
def buildEntry (hmenu : Nat) (e : MenuEntry T) (id_map : IdMap T)
    (heap : MenuHeap) : IdMap T × MenuHeap :=
  match e with
  | .item id label enabled checked icon =>
      add_menu_item hmenu id label enabled checked icon id_map heap
  | .submenu label enabled items =>
      let r := build_popup_menu items id_map heap
      (r.2.1, r.2.2.appendItem hmenu (.popup r.1 (!enabled) label))
  | .separator => (id_map, heap.appendItem hmenu .separator)
termination_by (sizeOf e, 0)

end

/-- Embeds `GetMenuItemCount` for an allocated handle. -/
def GetMenuItemCount (heap : MenuHeap) (hmenu : Nat) : Nat :=
  (heap.itemsOf hmenu).length

/-- Embeds `GetSubMenu`: the child handle when position `i` of `hmenu` holds
an MF_POPUP entry, and the null handle 0 otherwise. -/
def GetSubMenu (heap : MenuHeap) (hmenu : Nat) (i : Nat) : Nat :=
  match (heap.itemsOf hmenu)[i]? with
  | some (.popup child _ _) => child
  | _ => 0

/-- Embeds `destroy_menu_tree` from winit_tray_windows/src/menu.rs and
records the order of the `DestroyMenu` calls it performs: for each position
of the menu it recursively destroys the submenu found there (if any), and
finally destroys the menu itself.  The structural recursion of the source
is driven through the heap, so the model carries a fuel argument; every
heap produced by `build_popup_menu` is traversed fully when the fuel is at
least the number of allocated handles (see the C9 theorem). -/
def destroy_menu_tree (heap : MenuHeap) (fuel : Nat) (hmenu : Nat) : List Nat :=
  match fuel with
  | 0 => [hmenu]
  | fuel + 1 =>
    ((List.range (GetMenuItemCount heap hmenu)).flatMap fun i =>
      let submenu := GetSubMenu heap hmenu i
      if submenu ≠ 0 then destroy_menu_tree heap fuel submenu else [])
    ++ [hmenu]

/-- Tree of native menu handles: the handle of a menu together with the
trees of its submenus, in order. -/
inductive HTree where
  | node (h : Nat) (children : List HTree)

/-- The root handle of a handle tree. -/
def rootH : HTree → Nat
  | .node h _ => h

mutual

/-- Post-order flattening of a handle tree: all submenu handles, bottom-up,
followed by the root handle. -/
def postorderH : HTree → List Nat
  | .node h ch => postorderF ch ++ [h]

/-- Post-order flattening of a forest. -/
def postorderF : List HTree → List Nat
  | [] => []
  | t :: ts => postorderH t ++ postorderF ts

end

mutual

/-- Pre-order flattening of a handle tree (root handle first); this is the
order in which `CreatePopupMenu` allocates the handles during a build. -/
def preorderH : HTree → List Nat
  | .node h ch => h :: preorderF ch

/-- Pre-order flattening of a forest. -/
def preorderF : List HTree → List Nat
  | [] => []
  | t :: ts => preorderH t ++ preorderF ts

end

mutual

/-- The handle tree that `build_popup_menu` allocates for `items` when the
allocator's next handle is `n`, together with the allocator value after the
build. -/
def specMenu (items : List (MenuEntry T)) (n : Nat) : HTree × Nat :=
  let r := specEntries items (n + 1)
  (.node n r.1, r.2)
termination_by (sizeOf items, 1)

/-- The forest of submenu handle trees allocated for a list of entries. -/
def specEntries : List (MenuEntry T) → Nat → List HTree × Nat
  | [], n => ([], n)
  | e :: rest, n =>
    let r1 := specEntry e n
    let r2 := specEntries rest r1.2
    (r1.1 ++ r2.1, r2.2)
termination_by items => (sizeOf items, 0)

/-- The (zero- or one-element) forest allocated for a single entry: only a
submenu entry allocates handles. -/
def specEntry : MenuEntry T → Nat → List HTree × Nat
  | .submenu _ _ items, n => let r := specMenu items n; ([r.1], r.2)
  | _, n => ([], n)
termination_by e => (sizeOf e, 0)

end

/-- The allocated handles of a heap, in allocation order. -/
def keysOf (heap : MenuHeap) : List Nat := heap.menus.map Prod.fst

/-- Well-formedness of a menu heap: every allocated handle is non-null and
below the allocator's next handle, handles are unique, and the next handle
is non-null.  `MenuHeap.empty` satisfies this and every heap operation
preserves it. -/
def HeapWF (heap : MenuHeap) : Prop :=
  (∀ k ∈ keysOf heap, 0 < k ∧ k < heap.next) ∧ (keysOf heap).Nodup ∧ 0 < heap.next

/-- The child handles of the MF_POPUP entries of a native item list. -/
def popupChildren (l : List NativeMenuItem) : List Nat :=
  l.filterMap fun it =>
    match it with
    | .popup c _ _ => some c
    | _ => none

mutual

/-- The heap realizes the handle tree `t`: the menu at the root handle has
exactly the tree's children as MF_POPUP child handles (in order), and
recursively so for every subtree. -/
def RepresentsT (heap : MenuHeap) : HTree → Prop
  | .node h ch => popupChildren (heap.itemsOf h) = ch.map rootH ∧ RepresentsF heap ch

/-- The heap realizes every tree of the forest. -/
def RepresentsF (heap : MenuHeap) : List HTree → Prop
  | [] => True
  | t :: ts => RepresentsT heap t ∧ RepresentsF heap ts

end

mutual

/-- The tree `t` occupies exactly the handle interval from `n` (its root)
up to `n2` (exclusive), with the children's intervals consecutive — the
shape in which `build_popup_menu` allocates handles. -/
def SpanT (n : Nat) : HTree → Nat → Prop
  | .node h ch, n2 => h = n ∧ SpanF (n + 1) ch n2

/-- Forest version of `SpanT`: consecutive intervals for the trees. -/
def SpanF (n : Nat) : List HTree → Nat → Prop
  | [], n2 => n2 = n
  | t :: ts, n2 => ∃ m, SpanT n t m ∧ SpanF m ts n2

end

/-- Induction package for one entry: building it into menu `hmenu` of a
well-formed heap advances the allocator exactly as `specEntry` predicts,
preserves well-formedness and all other menus, appends to `hmenu` native
items whose popup children are the roots of the spec forest, and realizes
that forest in the resulting heap. -/
def EntryOK (T : Type) (e : MenuEntry T) : Prop :=
  ∀ (m : IdMap T) (heap : MenuHeap) (hmenu : Nat),
    HeapWF heap → hmenu ∈ keysOf heap →
    (buildEntry hmenu e m heap).2.next = (specEntry e heap.next).2 ∧
    HeapWF (buildEntry hmenu e m heap).2 ∧
    keysOf (buildEntry hmenu e m heap).2
      = keysOf heap ++ preorderF (specEntry e heap.next).1 ∧
    (∀ h, h ≠ hmenu → h < heap.next →
      (buildEntry hmenu e m heap).2.itemsOf h = heap.itemsOf h) ∧
    (∃ ni, (buildEntry hmenu e m heap).2.itemsOf hmenu = heap.itemsOf hmenu ++ ni ∧
      popupChildren ni = (specEntry e heap.next).1.map rootH) ∧
    RepresentsF (buildEntry hmenu e m heap).2 (specEntry e heap.next).1

/-- Induction package for an entry list (the build loop); mirrors `EntryOK`
with `specEntries`. -/
def EntriesOK (T : Type) (items : List (MenuEntry T)) : Prop :=
  ∀ (m : IdMap T) (heap : MenuHeap) (hmenu : Nat),
    HeapWF heap → hmenu ∈ keysOf heap →
    (buildEntries hmenu items m heap).2.next = (specEntries items heap.next).2 ∧
    HeapWF (buildEntries hmenu items m heap).2 ∧
    keysOf (buildEntries hmenu items m heap).2
      = keysOf heap ++ preorderF (specEntries items heap.next).1 ∧
    (∀ h, h ≠ hmenu → h < heap.next →
      (buildEntries hmenu items m heap).2.itemsOf h = heap.itemsOf h) ∧
    (∃ ni, (buildEntries hmenu items m heap).2.itemsOf hmenu
        = heap.itemsOf hmenu ++ ni ∧
      popupChildren ni = (specEntries items heap.next).1.map rootH) ∧
    RepresentsF (buildEntries hmenu items m heap).2 (specEntries items heap.next).1

/-- Induction package for a whole menu build: the returned handle is the
allocator's next handle, the allocator advances as `specMenu` predicts,
existing menus are untouched, the new keys are the spec tree's handles in
pre-order, and the final heap realizes the spec tree. -/
def MenuOK (T : Type) (items : List (MenuEntry T)) : Prop :=
  ∀ (m : IdMap T) (heap : MenuHeap), HeapWF heap →
    (build_popup_menu items m heap).1 = heap.next ∧
    (build_popup_menu items m heap).2.2.next = (specMenu items heap.next).2 ∧
    HeapWF (build_popup_menu items m heap).2.2 ∧
    keysOf (build_popup_menu items m heap).2.2
      = keysOf heap ++ preorderH (specMenu items heap.next).1 ∧
    (∀ h, h < heap.next →
      (build_popup_menu items m heap).2.2.itemsOf h = heap.itemsOf h) ∧
    RepresentsT (build_popup_menu items m heap).2.2 (specMenu items heap.next).1

/-- The behaviour of `GetSubMenu` restricted to an item list. -/
def subAtL (l : List NativeMenuItem) (i : Nat) : Nat :=
  match l[i]? with
  | some (.popup child _ _) => child
  | _ => 0

/-- The conclusion of claim C9 for a menu built from `entries` on a fresh
heap: destroying the returned handle produces a duplicate-free sequence of
`DestroyMenu` calls that covers exactly the allocated menu handles, and
every MF_POPUP child handle is destroyed strictly before the menu that
contains it ([child, parent] is a sublist of the destruction sequence). -/
def MenuDestroyBottomUp (T : Type) (entries : List (MenuEntry T)) : Prop :=
  (destroy_menu_tree (build_popup_menu entries (IdMap.new T) MenuHeap.empty).2.2
      (build_popup_menu entries (IdMap.new T) MenuHeap.empty).2.2.next
      (build_popup_menu entries (IdMap.new T) MenuHeap.empty).1).Nodup ∧
  (destroy_menu_tree (build_popup_menu entries (IdMap.new T) MenuHeap.empty).2.2
      (build_popup_menu entries (IdMap.new T) MenuHeap.empty).2.2.next
      (build_popup_menu entries (IdMap.new T) MenuHeap.empty).1).Perm
    (keysOf (build_popup_menu entries (IdMap.new T) MenuHeap.empty).2.2) ∧
  ∀ p c, c ∈ popupChildren
      ((build_popup_menu entries (IdMap.new T) MenuHeap.empty).2.2.itemsOf p) →
    List.Sublist [c, p]
      (destroy_menu_tree (build_popup_menu entries (IdMap.new T) MenuHeap.empty).2.2
        (build_popup_menu entries (IdMap.new T) MenuHeap.empty).2.2.next
        (build_popup_menu entries (IdMap.new T) MenuHeap.empty).1)

/-- The user ids of the `Item` entries of a menu tree in pre-order — the
order in which `build_popup_menu` calls `IdMap::insert`.  Separators and
submenu headers contribute nothing; a submenu's descendants are traversed
at the submenu's position. -/
def preorderIds : List (MenuEntry T) → List T
  | [] => []
  | .item id _ _ _ _ :: rest => id :: preorderIds rest
  | .submenu _ _ items :: rest => preorderIds items ++ preorderIds rest
  | .separator :: rest => preorderIds rest

/-- The ids contributed by one entry. -/
def entryIds : MenuEntry T → List T
  | .item id _ _ _ _ => [id]
  | .submenu _ _ items => preorderIds items
  | .separator => []

/-- Induction package: building one entry appends exactly its pre-order ids
to the id map. -/
def EntryIdsOK (T : Type) (e : MenuEntry T) : Prop :=
  ∀ (hmenu : Nat) (m : IdMap T) (heap : MenuHeap),
    (buildEntry hmenu e m heap).1.ids = m.ids ++ entryIds e

/-- The 3-entry demonstration menu of the spec: [Item(A,"Open"), Separator,
Item(B,"Exit")] with the user ids A = 10 and B = 20. -/
def demoMenu : List (MenuEntry Nat) :=
  [.item 10 "Open" true none false, .separator, .item 20 "Exit" true none false]

/-- The conclusion of claim C8: in every build from a fresh id map, command
codes are handed out in pre-order to `Item` entries only (the map's stored
ids are exactly the pre-order item ids, and code j+1 resolves to the j-th
pre-order item id); in particular for the 3-entry demonstration menu the
"Exit" item receives native command code 2 — the separator consumes no
code — and get(2) returns its id. -/
def CodesPreorderItemsOnly : Prop :=
  (∀ (T : Type) (entries : List (MenuEntry T)) (heap : MenuHeap),
    (build_popup_menu entries (IdMap.new T) heap).2.1.ids = preorderIds entries ∧
    ∀ j : Nat, (build_popup_menu entries (IdMap.new T) heap).2.1.get (j + 1)
      = (preorderIds entries).get? j) ∧
  (build_popup_menu demoMenu (IdMap.new Nat) MenuHeap.empty).2.1.get 2 = some 20 ∧
  (build_popup_menu demoMenu (IdMap.new Nat) MenuHeap.empty).2.2.itemsOf
      (build_popup_menu demoMenu (IdMap.new Nat) MenuHeap.empty).1
    = [.stringItem 1 false false "Open" false, .separator,
       .stringItem 2 false false "Exit" false]

/-- An NSMenuItem as configured by winit_tray_macos/src/menu.rs: a
separator, an action item (title, enabled flag, and a registered click
callback carrying the user id), or a submenu header item whose submenu is
either an attached NSMenu (a list of items) or absent. -/
inductive NSItem (T : Type) where
  | separator
  | actionItem (id : T) (label : String) (enabled : Bool)
  | submenuItem (label : String) (enabled : Bool) (submenu : Option (List (NSItem T)))

mutual

/-- Embeds `create_menu` from winit_tray_macos/src/menu.rs: returns no menu
(`None`) when `entries` is empty, otherwise an NSMenu holding one item per
entry.  The source's `Result` wrapper is omitted: no arm of the source
function produces an error. -/
def create_menu (entries : List (MenuEntry T)) : Option (List (NSItem T)) :=
  if entries.isEmpty then none
  else some (createItems entries)
termination_by (sizeOf entries, 2)

/-- The `for entry in entries` loop of `create_menu`. -/
def createItems : List (MenuEntry T) → List (NSItem T)
  | [] => []
  | e :: rest => createItem e :: createItems rest
termination_by entries => (sizeOf entries, 1)

/-- One loop iteration: embeds `NSMenuItem::separatorItem`,
`create_menu_item` and `create_submenu` respectively. -/
def createItem : MenuEntry T → NSItem T
  | .separator => .separator
  | .item id label enabled _ _ => .actionItem id label enabled
  | .submenu label enabled items => .submenuItem label enabled (create_menu items)
termination_by e => (sizeOf e, 0)

end

/-- The platform-split behaviour of a menu build on empty entries: the macOS
`create_menu` yields no menu exactly when the entries sequence is empty,
while the Windows `build_popup_menu` always allocates a fresh non-null
native menu — for empty entries it is an empty menu object, not an absent
handle. -/
def EmptyMenuBuildBehavior : Prop :=
  (∀ (T : Type), create_menu ([] : List (MenuEntry T)) = none) ∧
  (∀ (T : Type) (entries : List (MenuEntry T)),
    create_menu entries = none ↔ entries = []) ∧
  (∀ (T : Type) (m : IdMap T) (heap : MenuHeap), HeapWF heap →
    (build_popup_menu ([] : List (MenuEntry T)) m heap).1 = heap.next ∧
    (build_popup_menu ([] : List (MenuEntry T)) m heap).1 ≠ 0 ∧
    (build_popup_menu ([] : List (MenuEntry T)) m heap).2.2.itemsOf heap.next = [])

/-- Embeds `PopupCloseReason` from winit_tray_core/src/popup.rs. -/
inductive PopupCloseReasonM where
  | timeout
  | clickOutside
  | explicit

/-- The popup events emitted by the dispatcher of
winit_tray_windows/src/popup.rs, with the pointer payload (state, position,
button) abstracted away: it plays no role in lifecycle logic. -/
inductive PopupEventM where
  | pointerButton
  | closed (reason : PopupCloseReasonM)

/-- A window message delivered to `popup_window_callback`, together with the
messages the system delivers reentrantly while the handler for it runs: for
the three close paths these are the messages `DestroyWindow` dispatches
(e.g. WM_DESTROY/WM_NCDESTROY); for a mouse message they model the nested
dispatch of the modal `TrackPopupMenu` loop run by `show_menu`. -/
inductive PopupMsg where
  | timer (nested : List PopupMsg)
  | activateInactive (nested : List PopupMsg)
  | pointerButton (nested : List PopupMsg)
  | closeMsg (nested : List PopupMsg)
  | other

/-- The observable state of one popup window's dispatch machinery,
embedding `PopupWindowData` from winit_tray_windows/src/popup.rs together
with the pieces of ambient state its callback manipulates:
`userdataInstalled` is whether GWL_USERDATA still points at the record
(`util::set_window_long(window, GWL_USERDATA, 0)` clears it), `frees`
counts the `Box::from_raw` drops of the record, and `events` is the
sequence sent through the event proxy. -/
structure PopupCallbackState where
  userdataInstalled : Bool
  frees : Nat
  userdata_removed : Bool
  recurse_depth : Nat
  close_on_click_outside : Bool
  events : List PopupEventM

/-- The state right after `on_nccreate` installed a fresh
`PopupWindowData`: `userdata_removed: Cell::new(false)`,
`recurse_depth: Cell::new(0)`. -/
def initialPopupState (c : Bool) : PopupCallbackState :=
  { userdataInstalled := true, frees := 0, userdata_removed := false,
    recurse_depth := 0, close_on_click_outside := c, events := [] }

mutual

/-- Embeds `popup_window_callback` (winit_tray_windows/src/popup.rs, the
post-creation path): when GWL_USERDATA is 0 the message goes to
`DefWindowProcW` untouched; otherwise the recursion depth is incremented,
the inner handler runs, the depth is decremented, and the
`PopupWindowData` box is dropped exactly when the removed flag is set and
the depth has returned to 0. -/
def popup_window_callback (st : PopupCallbackState) (msg : PopupMsg) :
    PopupCallbackState :=
  if st.userdataInstalled = false then st
  else
    let st1 := { st with recurse_depth := st.recurse_depth + 1 }
    let st2 := popup_window_callback_inner st1 msg
    let userdata_removed := st2.userdata_removed
    let depth := st2.recurse_depth - 1
    let st3 := { st2 with recurse_depth := depth }
    if userdata_removed = true ∧ depth = 0 then { st3 with frees := st3.frees + 1 }
    else st3
termination_by (sizeOf msg, 1)

/-- Embeds `popup_window_callback_inner`: the auto-dismiss timer, the
click-outside deactivation, the mouse messages, and the POPUP_CLOSE
message.  Each close path sends one `Closed` event, sets the removed flag,
clears GWL_USERDATA, and calls `DestroyWindow` — whose reentrant messages
are then dispatched. -/
def popup_window_callback_inner (st : PopupCallbackState) (msg : PopupMsg) :
    PopupCallbackState :=
  match msg with
  | .timer nested =>
      popupDispatchList
        { st with events := st.events ++ [.closed .timeout],
                  userdata_removed := true, userdataInstalled := false } nested
  | .activateInactive nested =>
      if st.close_on_click_outside then
        popupDispatchList
          { st with events := st.events ++ [.closed .clickOutside],
                    userdata_removed := true, userdataInstalled := false } nested
      else st
  | .pointerButton nested =>
      popupDispatchList { st with events := st.events ++ [.pointerButton] } nested
  | .closeMsg nested =>
      popupDispatchList
        { st with events := st.events ++ [.closed .explicit],
                  userdata_removed := true, userdataInstalled := false } nested
  | .other => st
termination_by (sizeOf msg, 0)

/-- Sequential delivery of a list of messages to the popup window
procedure. -/
def popupDispatchList (st : PopupCallbackState) : List PopupMsg →
    PopupCallbackState
  | [] => st
  | m :: rest => popupDispatchList (popup_window_callback st m) rest
termination_by msgs => (sizeOf msgs, 0)

end

/-- Number of `Closed` events in an event sequence. -/
def closedCount (evs : List PopupEventM) : Nat :=
  (evs.filter fun e =>
    match e with
    | .closed _ => true
    | _ => false).length

/-- The dispatch invariant of one popup window, holding at every call
boundary of `popup_window_callback`: the record is freed at most once and
only with the removed flag set, at recursion depth 0, and after
GWL_USERDATA was cleared; while the userdata is still installed nothing
has been freed or removed; once the removed flag is set at depth 0 the
free has happened; and exactly one `Closed` event is ever emitted, at the
moment the removed flag is set. -/
def PopupInv (st : PopupCallbackState) : Prop :=
  st.frees ≤ 1 ∧
  (st.userdataInstalled = true → st.frees = 0 ∧ st.userdata_removed = false) ∧
  (st.frees = 1 → st.userdata_removed = true ∧ st.userdataInstalled = false ∧
    st.recurse_depth = 0) ∧
  (st.userdata_removed = true → st.recurse_depth = 0 → st.frees = 1) ∧
  closedCount st.events = (if st.userdata_removed then 1 else 0)

/-- The unwind step of `popup_window_callback` after the inner handler
returned with state `st2`. -/
def wrapStep (st2 : PopupCallbackState) : PopupCallbackState :=
  if st2.userdata_removed = true ∧ st2.recurse_depth - 1 = 0 then
    { st2 with recurse_depth := st2.recurse_depth - 1, frees := st2.frees + 1 }
  else { st2 with recurse_depth := st2.recurse_depth - 1 }

/-- Per-message induction package for the popup window procedure: one
dispatch preserves the recursion depth, never clears the removed flag, and
preserves the dispatch invariant. -/
def CbOK (m : PopupMsg) : Prop :=
  ∀ st : PopupCallbackState,
    (popup_window_callback st m).recurse_depth = st.recurse_depth ∧
    (st.userdata_removed = true → (popup_window_callback st m).userdata_removed = true) ∧
    (PopupInv st → PopupInv (popup_window_callback st m))

/-- List version of `CbOK` for `popupDispatchList`. -/
def ListOK (l : List PopupMsg) : Prop :=
  ∀ st : PopupCallbackState,
    (popupDispatchList st l).recurse_depth = st.recurse_depth ∧
    (st.userdata_removed = true → (popupDispatchList st l).userdata_removed = true) ∧
    (PopupInv st → PopupInv (popupDispatchList st l))

/-- Events sent by the tray window procedure of
winit_tray_windows/src/lib.rs (payload abstracted as for the popup). -/
inductive TrayEventM where
  | pointerButton

/-- A window message delivered to the tray's `public_window_callback` after
creation: a WM_USER_TRAYICON mouse notification (whose handler may run the
modal context-menu loop, dispatching nested messages), the DESTROY_MSG_ID
message (whose `DestroyWindow` call dispatches nested messages such as
WM_DESTROY), or any other message. -/
inductive TrayMsg where
  | trayIconButton (nested : List TrayMsg)
  | destroyMsg (nested : List TrayMsg)
  | other

/-- The observable state of one tray window's dispatch machinery, embedding
`WindowData` from winit_tray_windows/src/lib.rs (its `userdata_removed` and
`recurse_depth` cells) together with the installed-userdata flag, the
number of `Box::from_raw` drops, and the emitted events. -/
structure WindowDataState where
  userdataInstalled : Bool
  frees : Nat
  userdata_removed : Bool
  recurse_depth : Nat
  events : List TrayEventM

/-- The state right after `on_nccreate` installed a fresh `WindowData`. -/
def initialTrayState : WindowDataState :=
  { userdataInstalled := true, frees := 0, userdata_removed := false,
    recurse_depth := 0, events := [] }

mutual

/-- Embeds `public_window_callback` (winit_tray_windows/src/lib.rs, the
post-creation path): identical unwind discipline to the popup's callback —
the `WindowData` box is dropped exactly when `userdata_removed` is set and
the recursion depth has returned to 0. -/
def public_window_callback (st : WindowDataState) (msg : TrayMsg) :
    WindowDataState :=
  if st.userdataInstalled = false then st
  else
    let st1 := { st with recurse_depth := st.recurse_depth + 1 }
    let st2 := public_window_callback_inner st1 msg
    let userdata_removed := st2.userdata_removed
    let depth := st2.recurse_depth - 1
    let st3 := { st2 with recurse_depth := depth }
    if userdata_removed = true ∧ depth = 0 then { st3 with frees := st3.frees + 1 }
    else st3
termination_by (sizeOf msg, 1)

/-- Embeds `public_window_callback_inner`: WM_USER_TRAYICON sends a pointer
event (and may show the context menu, reentrantly dispatching messages);
the DESTROY_MSG_ID branch calls `DestroyWindow(window)` — and, unlike the
popup's close paths, it neither sets `userdata_removed` nor clears
GWL_USERDATA; every other message falls through to `DefWindowProcW`. -/
def public_window_callback_inner (st : WindowDataState) (msg : TrayMsg) :
    WindowDataState :=
  match msg with
  | .trayIconButton nested =>
      trayDispatchList { st with events := st.events ++ [.pointerButton] } nested
  | .destroyMsg nested =>
      trayDispatchList st nested
  | .other => st
termination_by (sizeOf msg, 0)

/-- Sequential delivery of a list of messages to the tray window
procedure. -/
def trayDispatchList (st : WindowDataState) : List TrayMsg → WindowDataState
  | [] => st
  | m :: rest => trayDispatchList (public_window_callback st m) rest
termination_by msgs => (sizeOf msgs, 0)

end

/-- The tray dispatch invariant: no dispatch path ever sets the removed
flag, and consequently the `WindowData` record is never freed. -/
def TrayInv (st : WindowDataState) : Prop :=
  st.userdata_removed = false ∧ st.frees = 0

/-- The conclusion of claim C10: starting from a freshly installed
`WindowData`, after any sequence of tray window messages — nested
reentrant deliveries included, and the DESTROY_MSG_ID branch in
particular — the `userdata_removed` flag is still false and the record
has never been freed. -/
def TrayNeverFrees : Prop :=
  (∀ msgs : List TrayMsg,
    (trayDispatchList initialTrayState msgs).userdata_removed = false ∧
    (trayDispatchList initialTrayState msgs).frees = 0) ∧
  (trayDispatchList initialTrayState [.destroyMsg []]).userdata_removed = false ∧
  (trayDispatchList initialTrayState [.destroyMsg []]).frees = 0

/-- The conclusion of claim C1.  General part: after any top-level message
sequence (with arbitrary reentrant nesting) delivered to a fresh popup
window, the depth counter is back to 0, the `PopupWindowData` record has
been freed at most once, it has been freed exactly once if (and only if)
the removed flag was set, and a free implies the userdata pointer was
cleared.  By instantiating the sequence at every prefix, the record is
never freed before the depth counter returns to 0 (the dispatch invariant
`frees = 1 → recurse_depth = 0` holds at every call boundary).  The tray
dispatcher's `WindowData` is likewise never double-freed.  Concrete part:
a destroy request arriving in a nested (reentrant) callback — a close
message delivered inside a mouse-message handler — frees the record
exactly once and emits the pointer event and one Closed event. -/
def PopupDestroySafety : Prop :=
  (∀ (c : Bool) (msgs : List PopupMsg),
    (popupDispatchList (initialPopupState c) msgs).recurse_depth = 0 ∧
    (popupDispatchList (initialPopupState c) msgs).frees ≤ 1 ∧
    ((popupDispatchList (initialPopupState c) msgs).userdata_removed = true →
      (popupDispatchList (initialPopupState c) msgs).frees = 1) ∧
    ((popupDispatchList (initialPopupState c) msgs).frees = 1 →
      (popupDispatchList (initialPopupState c) msgs).userdata_removed = true ∧
      (popupDispatchList (initialPopupState c) msgs).userdataInstalled = false)) ∧
  (∀ msgs : List TrayMsg, (trayDispatchList initialTrayState msgs).frees ≤ 1) ∧
  (popupDispatchList (initialPopupState true) [.pointerButton [.closeMsg []]]).frees = 1 ∧
  (popupDispatchList (initialPopupState true) [.pointerButton [.closeMsg []]]).events
    = [.pointerButton, .closed .explicit]

/-- The conclusion of claim C3: a second close request delivered after a
first one — the nested lists allow either request to arrive with arbitrary
reentrant message deliveries of its own, including a second close nested
inside the first — leaves the state literally unchanged (the callback
reads GWL_USERDATA as 0 and falls through to DefWindowProcW), and in the
final state exactly one Closed event was emitted and the record was freed
exactly once. -/
def PopupCloseIdempotent : Prop :=
  ∀ (c : Bool) (n1 n2 : List PopupMsg),
    popup_window_callback (popup_window_callback (initialPopupState c) (.closeMsg n1))
        (.closeMsg n2)
      = popup_window_callback (initialPopupState c) (.closeMsg n1) ∧
    closedCount (popup_window_callback (initialPopupState c) (.closeMsg n1)).events = 1 ∧
    (popup_window_callback (initialPopupState c) (.closeMsg n1)).frees = 1

/-- The outcome of a (potentially blocking) `std::sync::mpsc::Receiver::recv`
call: a value, the `RecvError` returned when every Sender has been dropped,
or no return at all — the call parks the thread (modelled as the distinct
outcome `blocks`). -/
inductive RecvOutcome (E : Type) where
  | ok (e : E)
  | disconnected
  | blocks

/-- The outcome of `try_recv`: a value, `TryRecvError::Empty`, or
`TryRecvError::Disconnected`. -/
inductive TryRecvOutcome (E : Type) where
  | ok (e : E)
  | empty
  | disconnected

/-- An mpsc channel: the queued events and the number of live `Sender`
values. -/
structure Channel (E : Type) where
  queue : List E
  senders : Nat

/-- Embeds `Receiver::recv` semantics: a queued value is returned; on an empty
queue the call reports disconnection when no Sender is alive and otherwise
blocks. -/
def Channel.recv (c : Channel E) : RecvOutcome E × Channel E :=
  match c.queue with
  | e :: rest => (.ok e, { c with queue := rest })
  | [] => (if c.senders = 0 then .disconnected else .blocks, c)

/-- Embeds `Receiver::try_recv` semantics: as `recv`, but an empty queue with live
senders reports `Empty` instead of blocking. -/
def Channel.try_recv (c : Channel E) : TryRecvOutcome E × Channel E :=
  match c.queue with
  | e :: rest => (.ok e, { c with queue := rest })
  | [] => (if c.senders = 0 then .disconnected else .empty, c)

/-- The reference structure of `TrayManager` (src/src/lib.rs): the Manager
owns the Receiver and one `Arc` reference to `callback_proxy`, the closure
that captured the (sole surviving) Sender clone; `proxyStrong` is that
Arc's strong count.  The Sender inside the closure is dropped exactly when
the strong count reaches 0. -/
structure TrayManagerModel (E : Type) where
  chan : Channel E
  proxyStrong : Nat

/-- Embeds `TrayManager::new`: `mpsc::channel()` is created, a clone of the
Sender is moved into the proxy closure, and the original Sender is dropped
when `new` returns — so exactly one Sender survives, inside the Arc-ed
closure, and the Manager holds the only Arc reference. -/
def TrayManagerModel.new (E : Type) : TrayManagerModel E :=
  { chan := { queue := [], senders := 1 }, proxyStrong := 1 }

/-- Embeds `TrayManager::create_tray` together with the Windows
`Tray::new`/`init` path it invokes: the platform layer receives
`self.callback_proxy.clone()` and clones it twice more — once into the
returned `Tray` struct (released when that tray is dropped) and once into
the `event_sender` closure of the heap-allocated `WindowData`
(winit_tray_windows/src/lib.rs `create_tray_data`), which is never freed
(the leak proven for claim C10) — while the intermediate `InitData`
reference dies when `init` returns.  Net effect of one creation: the
strong count rises by 2, one of the two new references permanently
unreachable.  (An attached menu would leak one further clone in
`menu_handler`; modelling the menu-less tray understates the leak.)  No
new Sender is created. -/
def TrayManagerModel.create_tray (m : TrayManagerModel E) : TrayManagerModel E :=
  { m with proxyStrong := m.proxyStrong + 2 }

/-- Embeds dropping a `Box<dyn Tray>`: the `Tray` struct's own `Arc` clone
of `callback_proxy` is released, with the generic `Arc` drop semantics
that the closure and the Sender it captured die when the strong count
reaches 0.  The clone inside the leaked `WindowData` is unreachable to the
program and can never be released this way, and no program operation drops
the Manager's own reference while retaining the Receiver. -/
def TrayManagerModel.drop_tray (m : TrayManagerModel E) : TrayManagerModel E :=
  { chan := if m.proxyStrong - 1 = 0 then
      { m.chan with senders := m.chan.senders - 1 } else m.chan,
    proxyStrong := m.proxyStrong - 1 }

/-- Performs `n` consecutive `create_tray` calls. -/
def TrayManagerModel.createTrays (m : TrayManagerModel E) : Nat → TrayManagerModel E
  | 0 => m
  | n + 1 => (m.create_tray).createTrays n

/-- Destroying `n` trays: each drop releases that tray's own Arc reference
to the proxy (and only that one — the reference leaked into its
`WindowData` stays). -/
def TrayManagerModel.dropTrays (m : TrayManagerModel E) : Nat → TrayManagerModel E
  | 0 => m
  | n + 1 => (m.drop_tray).dropTrays n

/-- Create `n` trays from a fresh Manager and then destroy all of them
while the Manager stays alive. -/
def destroyAllTrays (E : Type) (n : Nat) : TrayManagerModel E :=
  ((TrayManagerModel.new E).createTrays n).dropTrays n

/-- The conclusion of the amended claim C5.  Channel level: on an empty
queue `recv` reports Disconnected exactly when no Sender survives, and
blocks otherwise, while `try_recv` reports Empty in that blocking case —
the two error conditions are reported distinctly.  Program level: every
created tray leaks one Arc clone of `callback_proxy` into its never-freed
`WindowData`, so after creating and then destroying all `n` trays the
strong count is still `1 + n` (the Manager's reference plus the `n`
leaked ones), the Sender survives, `recv` blocks and `try_recv` reports
Empty — the Disconnected outcome is unreachable by destroying objects. -/
def RecvDisconnection : Prop :=
  (∀ (E : Type) (c : Channel E), c.queue = [] →
    ((c.recv).1 = RecvOutcome.disconnected ↔ c.senders = 0) ∧
    ((c.try_recv).1 = TryRecvOutcome.disconnected ↔ c.senders = 0) ∧
    ((c.recv).1 = RecvOutcome.blocks ↔ 0 < c.senders) ∧
    ((c.try_recv).1 = TryRecvOutcome.empty ↔ 0 < c.senders)) ∧
  ∀ (E : Type) (n : Nat),
    (destroyAllTrays E n).chan.queue = [] ∧
    (destroyAllTrays E n).proxyStrong = 1 + n ∧
    (destroyAllTrays E n).chan.senders = 1 ∧
    ((destroyAllTrays E n).chan.recv).1 = RecvOutcome.blocks ∧
    ((destroyAllTrays E n).chan.try_recv).1 = TryRecvOutcome.empty

/-- The Windows tray object (winit_tray_windows/src/lib.rs `Tray`):
`window_handle` is the HWND that `CreateWindowExW` returned, an OS-chosen
value the program does not control; `inernal_id` (sic) is the value taken
from the monotonically increasing `COUNTER` during creation. -/
structure WinTray where
  window_handle : Nat
  inernal_id : Nat

/-- Embeds `impl CoreTray for Tray` on Windows:
`TrayId::from_raw(self.window_handle.hwnd() as usize)` — the id is the raw
window handle, NOT the counter value stored in `inernal_id`. -/
def WinTray.id (t : WinTray) : Nat := t.window_handle

/-- Embeds the creation of a Windows tray: the OS supplies `hwnd`, the
counter supplies `inernal_id` via `COUNTER.fetch_add(1)`. -/
def winTrayCreate (hwnd counter : Nat) : WinTray × Nat :=
  ({ window_handle := hwnd, inernal_id := counter }, counter + 1)

/-- The Linux tray object (winit_tray_linux/src/lib.rs `Tray`): its
`internal_id` comes from `COUNTER.fetch_add(1)` and `Tray::id` returns
`TrayId::from_raw(self.internal_id)`. -/
structure LinuxTray where
  internal_id : Nat

/-- Embeds the Linux `impl CoreTray for Tray`. -/
def LinuxTray.id (t : LinuxTray) : Nat := t.internal_id

/-- Embeds `Tray::new` on Linux: the id is the counter value. -/
def linuxTrayNew (counter : Nat) : LinuxTray × Nat :=
  ({ internal_id := counter }, counter + 1)

/-- The Windows popup object (winit_tray_windows/src/popup.rs `Popup`):
`internal_id` comes from `POPUP_COUNTER.fetch_add(1)` and `Popup::id`
returns `PopupId::from_raw(self.internal_id)`. -/
structure WinPopup where
  window_handle : Nat
  internal_id : Nat

/-- Embeds the Windows `impl CorePopup for Popup`. -/
def WinPopup.id (p : WinPopup) : Nat := p.internal_id

/-- Embeds `create_popup` inside `PopupInitData::on_nccreate`. -/
def winPopupCreate (hwnd counter : Nat) : WinPopup × Nat :=
  ({ window_handle := hwnd, internal_id := counter }, counter + 1)

/-- The ids of `n` consecutive Linux tray creations starting from counter
value `c`. -/
def linuxIds (c : Nat) : Nat → List Nat
  | 0 => []
  | n + 1 => (linuxTrayNew c).1.id :: linuxIds (linuxTrayNew c).2 n

/-- The ids of `n` consecutive Windows popup creations starting from
counter value `c` (whatever window handles the OS returns). -/
def winPopupIds (c : Nat) (hwnds : List Nat) : List Nat :=
  match hwnds with
  | [] => []
  | h :: rest => (winPopupCreate h c).1.id :: winPopupIds (winPopupCreate h c).2 rest

/-- The conclusion of the amended claim C6: the Linux tray backend and the
Windows popup backend allocate ids from monotonically increasing counters
(successive creations yield the strictly increasing ids c, c+1, ...),
while the Windows tray backend derives its id from the native window
handle, ignoring its counter-allocated `inernal_id` — so tray ids on
Windows are exactly the OS-chosen handle values. -/
def ObjectIdAllocation : Prop :=
  (∀ c n, linuxIds c n = List.range' c n) ∧
  (∀ c n, (linuxIds c n).Chain' (· < ·)) ∧
  (∀ c hwnds, winPopupIds c hwnds = List.range' c hwnds.length) ∧
  (∀ c hwnds, (winPopupIds c hwnds).Chain' (· < ·)) ∧
  (∀ hwnd counter, (winTrayCreate hwnd counter).1.id = hwnd)

/-- Embeds `Runner` from winit_tray_windows/src/lib.rs: a cell holding a
captured panic payload. -/
structure RunnerM (P : Type) where
  panic_error : Option P

/-- Embeds `Runner::catch_unwind`: a computation that ends normally is
returned as `Some`; a panic payload is stored in the cell and `None` is
returned — the panic does not propagate past this point. -/
def RunnerM.catch_unwind (r : RunnerM P) (f : Except P A) : RunnerM P × Option A :=
  match f with
  | .ok a => (r, some a)
  | .error e => ({ panic_error := some e }, none)

/-- Embeds `Runner::take_panic_error`: takes the stored payload (clearing
the cell) as `Err`, or returns `Ok(())`. -/
def RunnerM.take_panic_error (r : RunnerM P) : RunnerM P × Except P Unit :=
  match r.panic_error with
  | some e => ({ panic_error := none }, .error e)
  | none => (r, .ok ())

/-- The outcome of the `init` entry point of winit_tray_windows/src/lib.rs:
the captured panic re-raised by `std::panic::resume_unwind`, a creation
failure (`handle.is_null()`), or the constructed tray. -/
inductive CreateOutcome (P T : Type) where
  | panicked (p : P)
  | creationFailed
  | created (t : T)

/-- Embeds the two-phase construction flow of `init`
(winit_tray_windows/src/lib.rs): `CreateWindowExW` delivers WM_NCCREATE,
whose `on_nccreate` wraps the pre-create hook (modelled as the computation
`precreate`, which may panic) in `Runner::catch_unwind`.  When the hook
panicked, `on_nccreate` returns None, the window procedure returns -1,
`CreateWindowExW` returns null and the WM_CREATE post-create hook is never
delivered; back in `init` the stored payload is taken and re-raised.  When
the hook succeeds, WM_CREATE runs `on_create`, whose
`self.tray.as_mut().expect(..)` cannot fail because the tray was just
stored by the successful `on_nccreate`. -/
def windows_init (P T : Type) (precreate : Except P T) :
    CreateOutcome P T × RunnerM P :=
  let r0 : RunnerM P := { panic_error := none }
  let c := r0.catch_unwind precreate
  match c.2 with
  | none =>
      let t := c.1.take_panic_error
      (match t.2 with
       | .error p => (.panicked p, t.1)
       | .ok _ => (.creationFailed, t.1))
  | some tray =>
      let t := c.1.take_panic_error
      (match t.2 with
       | .error p => (.panicked p, t.1)
       | .ok _ => (.created tray, t.1))

/-- The conclusion of claim C7: a panic raised inside the pre-create hook
is converted by `catch_unwind` into a normal `None` return (nothing
unwinds across the native callback boundary) with the payload stored;
`init` then re-raises exactly that payload to its caller, exactly once —
afterwards the cell is empty, so a further take yields `Ok`.  A
non-panicking hook yields the constructed object with an empty cell. -/
def PanicCaptureReraise : Prop :=
  (∀ (P T : Type) (p : P),
    (RunnerM.catch_unwind { panic_error := none } (Except.error p : Except P T)).2
      = none ∧
    (RunnerM.catch_unwind { panic_error := none }
        (Except.error p : Except P T)).1.panic_error = some p ∧
    (windows_init P T (Except.error p)).1 = CreateOutcome.panicked p ∧
    (windows_init P T (Except.error p)).2.panic_error = none ∧
    ((windows_init P T (Except.error p)).2.take_panic_error).2 = Except.ok ()) ∧
  (∀ (P T : Type) (t : T),
    (windows_init P T (Except.ok t)).1 = CreateOutcome.created t ∧
    (windows_init P T (Except.ok t)).2.panic_error = none)


theorem IdMap.insert_ids (m : IdMap T) (x : T) :
    (m.insert x).1.ids = m.ids ++ [x] := rfl

theorem IdMap.insert_code (m : IdMap T) (x : T)
    (h : m.ids.length + 1 < u32size) :
    (m.insert x).2 = m.ids.length + 1 := by
  unfold IdMap.insert
  simp only
  rw [Nat.mod_eq_of_lt (lt_trans (Nat.lt_succ_self _) h), Nat.mod_eq_of_lt h]

theorem IdMap.insertAll_ids (m : IdMap T) (xs : List T) :
    (m.insertAll xs).1.ids = m.ids ++ xs := by
  induction xs generalizing m with
  | nil => simp [IdMap.insertAll]
  | cons x rest ih =>
    simp [IdMap.insertAll, ih, IdMap.insert]

theorem IdMap.insertAll_codes (m : IdMap T) (xs : List T)
    (h : m.ids.length + xs.length < u32size) :
    (m.insertAll xs).2 = List.range' (m.ids.length + 1) xs.length := by
  induction xs generalizing m with
  | nil => simp [IdMap.insertAll]
  | cons x rest ih =>
    have hlen : m.ids.length + 1 < u32size := by
      simp at h; omega
    have hrest : ((m.insert x).1.ids).length + rest.length < u32size := by
      rw [IdMap.insert_ids]; simp at h ⊢; omega
    simp only [IdMap.insertAll, IdMap.insert_code m x hlen, ih _ hrest,
      IdMap.insert_ids]
    simp [List.range'_succ]

theorem IdMap.get_zero (m : IdMap T) : m.get 0 = none := rfl

theorem IdMap.get_succ (m : IdMap T) (j : Nat) :
    m.get (j + 1) = m.ids.get? j := by
  simp [IdMap.get]

/-- Claim C2: for every sequence of n insertions into a fresh IdMap, insert
returns strictly increasing codes starting at 1; for every inserted value x,
get applied to the code that insert(x) returned yields a clone equal to x;
and get(0) and get(n+1) both return nothing.  (The hypothesis excludes the
u32 wrap of the code counter, which cannot occur below 2^32 - 1 entries.) -/
theorem idmap_roundtrip (T : Type) (xs : List T)
    (h : xs.length + 1 < u32size) : IdMapRoundtrip T xs := by
  have hcodes : ((IdMap.new T).insertAll xs).2 = List.range' 1 xs.length := by
    have := IdMap.insertAll_codes (IdMap.new T) xs (by simpa [IdMap.new] using by omega)
    simpa [IdMap.new] using this
  have hids : ((IdMap.new T).insertAll xs).1.ids = xs := by
    simpa [IdMap.new] using IdMap.insertAll_ids (IdMap.new T) xs
  refine ⟨hcodes, ?_, rfl, ?_⟩
  · intro j hj
    have hgetd : (((IdMap.new T).insertAll xs).2).getD j 0 = 1 + j := by
      rw [hcodes]
      have hlen : j < (List.range' 1 xs.length).length := by simpa using hj
      rw [List.getD_eq_getElem _ _ hlen, List.getElem_range'_1]
    rw [hgetd, Nat.add_comm 1 j, IdMap.get_succ, hids]
  · rw [IdMap.get_succ, hids]
    exact List.get?_eq_none.2 (by omega)

theorem idmap_roundtrip_witness :
    ([10, 20, 30] : List Nat).length + 1 < u32size ∧ IdMapRoundtrip Nat [10, 20, 30] :=
  ⟨by decide, idmap_roundtrip Nat [10, 20, 30] (by decide)⟩

/-- Member-based induction principle for the nested inductive `MenuEntry`:
to prove a property of every entry it suffices to prove it for items and
separators outright and for submenus assuming it for every nested entry. -/
theorem menuEntryMemberInduction {T : Type} (motive : MenuEntry T → Prop)
    (hitem : ∀ id label enabled checked icon, motive (.item id label enabled checked icon))
    (hsub : ∀ label enabled items, (∀ e ∈ items, motive e) → motive (.submenu label enabled items))
    (hsep : motive .separator) : ∀ e, motive e
  | .item id label enabled checked icon => hitem id label enabled checked icon
  | .submenu label enabled items =>
      hsub label enabled items (fun e he =>
        have : sizeOf e < sizeOf (MenuEntry.submenu label enabled items) := by
          have := List.sizeOf_lt_of_mem he
          simp only [MenuEntry.submenu.sizeOf_spec]
          omega
        menuEntryMemberInduction motive hitem hsub hsep e)
  | .separator => hsep
termination_by e => sizeOf e

/-- Member-based induction principle for `HTree`. -/
theorem htreeMemberInduction (motive : HTree → Prop)
    (step : ∀ h ch, (∀ c ∈ ch, motive c) → motive (.node h ch)) : ∀ t, motive t
  | .node h ch =>
      step h ch (fun c hc =>
        have : sizeOf c < sizeOf (HTree.node h ch) := by
          have := List.sizeOf_lt_of_mem hc
          simp only [HTree.node.sizeOf_spec]
          omega
        htreeMemberInduction motive step c)
termination_by t => sizeOf t

theorem heapWF_empty : HeapWF MenuHeap.empty := by
  refine ⟨?_, ?_, ?_⟩ <;> simp [MenuHeap.empty, keysOf]

theorem itemsOf_not_key (heap : MenuHeap) (h : Nat) (hk : h ∉ keysOf heap) :
    heap.itemsOf h = [] := by
  unfold MenuHeap.itemsOf
  have : heap.menus.find? (fun p => p.1 = h) = none := by
    rw [List.find?_eq_none]
    intro p hp
    simp only [decide_eq_true_eq]
    intro he
    exact hk (he ▸ List.mem_map_of_mem Prod.fst hp)
  rw [this]

theorem create_fst (heap : MenuHeap) : (CreatePopupMenu heap).1 = heap.next := rfl

theorem create_next (heap : MenuHeap) :
    (CreatePopupMenu heap).2.next = heap.next + 1 := rfl

theorem create_keys (heap : MenuHeap) :
    keysOf (CreatePopupMenu heap).2 = keysOf heap ++ [heap.next] := by
  simp [CreatePopupMenu, keysOf]

theorem create_itemsOf_ne (heap : MenuHeap) (h : Nat) (hne : h ≠ heap.next) :
    (CreatePopupMenu heap).2.itemsOf h = heap.itemsOf h := by
  unfold MenuHeap.itemsOf CreatePopupMenu
  simp only
  rw [List.find?_append]
  cases hf : heap.menus.find? (fun p => p.1 = h) with
  | some p => simp
  | none =>
    simp only [Option.none_or]
    have : (List.find? (fun p => p.1 = h) [(heap.next, ([] : List NativeMenuItem))]) = none := by
      simp [List.find?, hne.symm]
    rw [this]

theorem create_itemsOf_new (heap : MenuHeap) (hk : heap.next ∉ keysOf heap) :
    (CreatePopupMenu heap).2.itemsOf heap.next = [] := by
  unfold MenuHeap.itemsOf CreatePopupMenu
  simp only
  rw [List.find?_append]
  have h1 : heap.menus.find? (fun p => p.1 = heap.next) = none := by
    rw [List.find?_eq_none]
    intro p hp
    simp only [decide_eq_true_eq]
    intro he
    exact hk (he ▸ List.mem_map_of_mem Prod.fst hp)
  rw [h1]
  simp [List.find?]

theorem create_wf (heap : MenuHeap) (hwf : HeapWF heap) :
    HeapWF (CreatePopupMenu heap).2 := by
  obtain ⟨hb, hnd, hpos⟩ := hwf
  refine ⟨?_, ?_, ?_⟩
  · intro k hk
    rw [create_keys] at hk
    rcases List.mem_append.1 hk with hk | hk
    · have := hb k hk
      rw [create_next]
      omega
    · simp at hk
      subst hk
      rw [create_next]
      omega
  · rw [create_keys]
    refine List.Nodup.append hnd (by simp) ?_
    intro a ha hb2
    simp at hb2
    subst hb2
    exact absurd (hb _ ha).2 (lt_irrefl _)
  · rw [create_next]; omega

theorem append_next (heap : MenuHeap) (hmenu : Nat) (it : NativeMenuItem) :
    (heap.appendItem hmenu it).next = heap.next := rfl

theorem append_keys (heap : MenuHeap) (hmenu : Nat) (it : NativeMenuItem) :
    keysOf (heap.appendItem hmenu it) = keysOf heap := by
  unfold keysOf MenuHeap.appendItem
  simp only
  rw [List.map_map]
  apply List.map_congr_left
  intro p _
  by_cases hp : p.1 = hmenu <;> simp [hp]

theorem append_wf (heap : MenuHeap) (hmenu : Nat) (it : NativeMenuItem)
    (hwf : HeapWF heap) : HeapWF (heap.appendItem hmenu it) := by
  obtain ⟨hb, hnd, hpos⟩ := hwf
  exact ⟨by rw [append_keys, append_next]; exact hb, by rw [append_keys]; exact hnd,
    by rw [append_next]; exact hpos⟩

theorem find?_map_update_ne (l : List (Nat × List NativeMenuItem)) (hmenu h : Nat)
    (it : NativeMenuItem) (hne : h ≠ hmenu) :
    (l.map fun p => if p.1 = hmenu then (p.1, p.2 ++ [it]) else p).find?
        (fun p => p.1 = h)
      = l.find? (fun p => p.1 = h) := by
  induction l with
  | nil => rfl
  | cons p rest ih =>
    by_cases hp : p.1 = hmenu
    · simp only [List.map_cons, if_pos hp]
      rw [List.find?_cons_of_neg _ (by simp [hp, Ne.symm hne]),
        List.find?_cons_of_neg _ (by simp [hp, Ne.symm hne])]
      exact ih
    · simp only [List.map_cons, if_neg hp]
      by_cases hd : p.1 = h
      · rw [List.find?_cons_of_pos _ (by simp [hd]), List.find?_cons_of_pos _ (by simp [hd])]
      · rw [List.find?_cons_of_neg _ (by simp [hd]), List.find?_cons_of_neg _ (by simp [hd])]
        exact ih

theorem find?_map_update_self (l : List (Nat × List NativeMenuItem)) (hmenu : Nat)
    (it : NativeMenuItem) :
    (l.map fun p => if p.1 = hmenu then (p.1, p.2 ++ [it]) else p).find?
        (fun p => p.1 = hmenu)
      = (l.find? (fun p => p.1 = hmenu)).map (fun p => (p.1, p.2 ++ [it])) := by
  induction l with
  | nil => rfl
  | cons p rest ih =>
    by_cases hp : p.1 = hmenu
    · simp only [List.map_cons, if_pos hp]
      rw [List.find?_cons_of_pos _ (by simp [hp]), List.find?_cons_of_pos _ (by simp [hp])]
      simp [hp]
    · simp only [List.map_cons, if_neg hp]
      rw [List.find?_cons_of_neg _ (by simp [hp]), List.find?_cons_of_neg _ (by simp [hp])]
      exact ih

theorem append_itemsOf_ne (heap : MenuHeap) (hmenu h : Nat) (it : NativeMenuItem)
    (hne : h ≠ hmenu) : (heap.appendItem hmenu it).itemsOf h = heap.itemsOf h := by
  unfold MenuHeap.itemsOf MenuHeap.appendItem
  simp only
  rw [find?_map_update_ne heap.menus hmenu h it hne]

theorem append_itemsOf_self (heap : MenuHeap) (hmenu : Nat) (it : NativeMenuItem)
    (hk : hmenu ∈ keysOf heap) :
    (heap.appendItem hmenu it).itemsOf hmenu = heap.itemsOf hmenu ++ [it] := by
  unfold MenuHeap.itemsOf MenuHeap.appendItem
  simp only
  rw [find?_map_update_self heap.menus hmenu it]
  have hsome : (heap.menus.find? (fun p => p.1 = hmenu)).isSome := by
    rw [List.find?_isSome]
    simp only [keysOf, List.mem_map] at hk
    obtain ⟨p, hp, he⟩ := hk
    exact ⟨p, hp, by simp [he]⟩
  cases hf : heap.menus.find? (fun p => p.1 = hmenu) with
  | some p => simp
  | none => rw [hf] at hsome; simp at hsome

theorem spanF_append (l1 l2 : List HTree) (n m n2 : Nat)
    (h1 : SpanF n l1 m) (h2 : SpanF m l2 n2) : SpanF n (l1 ++ l2) n2 := by
  induction l1 generalizing n with
  | nil => simpa [SpanF] using h1 ▸ h2
  | cons t ts ih =>
    obtain ⟨k, hk, hrest⟩ := h1
    exact ⟨k, hk, ih k hrest⟩

theorem spanF_le_of (ts : List HTree)
    (H : ∀ c ∈ ts, ∀ n n2, SpanT n c n2 → n < n2) :
    ∀ n n2, SpanF n ts n2 → n ≤ n2 := by
  induction ts with
  | nil => intro n n2 h; simp [SpanF] at h; omega
  | cons t rest ih =>
    intro n n2 h
    obtain ⟨m, hm, hrest⟩ := h
    have h1 := H t (by simp) n m hm
    have h2 := ih (fun c hc => H c (by simp [hc])) m n2 hrest
    omega

theorem spanT_lt : ∀ (t : HTree) (n n2 : Nat), SpanT n t n2 → n < n2 := by
  intro t
  induction t using htreeMemberInduction with
  | step h ch IH =>
    intro n n2 hs
    obtain ⟨-, hf⟩ := hs
    have := spanF_le_of ch (fun c hc => IH c hc) (n + 1) n2 hf
    omega

theorem spanF_le (ts : List HTree) (n n2 : Nat) (h : SpanF n ts n2) : n ≤ n2 :=
  spanF_le_of ts (fun c _ => spanT_lt c) n n2 h

theorem spanF_nil_of_eq (ts : List HTree) (n : Nat) (h : SpanF n ts n) : ts = [] := by
  cases ts with
  | nil => rfl
  | cons t rest =>
    obtain ⟨m, hm, hrest⟩ := h
    have h1 := spanT_lt t n m hm
    have h2 := spanF_le rest m n hrest
    omega

theorem spanF_bounds_of (ts : List HTree)
    (H : ∀ c ∈ ts, ∀ n n2, SpanT n c n2 → ∀ h ∈ postorderH c, n ≤ h ∧ h < n2) :
    ∀ n n2, SpanF n ts n2 → ∀ h ∈ postorderF ts, n ≤ h ∧ h < n2 := by
  induction ts with
  | nil => intro n n2 _ h hh; simp [postorderF] at hh
  | cons t rest ih =>
    intro n n2 hs h hh
    obtain ⟨m, hm, hrest⟩ := hs
    rcases List.mem_append.1 (by simpa [postorderF] using hh) with hh | hh
    · have := H t (by simp) n m hm h hh
      have := spanF_le rest m n2 hrest
      omega
    · have := ih (fun c hc => H c (by simp [hc])) m n2 hrest h hh
      have := spanT_lt t n m hm
      omega

theorem spanT_bounds : ∀ (t : HTree) (n n2 : Nat), SpanT n t n2 →
    ∀ h ∈ postorderH t, n ≤ h ∧ h < n2 := by
  intro t
  induction t using htreeMemberInduction with
  | step hh ch IH =>
    intro n n2 hs h hmem
    obtain ⟨hroot, hf⟩ := hs
    have hle : n + 1 ≤ n2 := spanF_le ch (n + 1) n2 hf
    simp only [postorderH, List.mem_append, List.mem_singleton] at hmem
    rcases hmem with hmem | hmem
    · have := spanF_bounds_of ch (fun c hc => IH c hc) (n + 1) n2 hf h hmem
      omega
    · omega

theorem spanF_bounds (ts : List HTree) (n n2 : Nat) (h : SpanF n ts n2) :
    ∀ x ∈ postorderF ts, n ≤ x ∧ x < n2 :=
  spanF_bounds_of ts (fun c _ => spanT_bounds c) n n2 h

theorem spanF_nodup_of (ts : List HTree)
    (H : ∀ c ∈ ts, ∀ n n2, SpanT n c n2 → (postorderH c).Nodup) :
    ∀ n n2, SpanF n ts n2 → (postorderF ts).Nodup := by
  induction ts with
  | nil => intro n n2 _; simp [postorderF]
  | cons t rest ih =>
    intro n n2 hs
    obtain ⟨m, hm, hrest⟩ := hs
    simp only [postorderF]
    refine List.Nodup.append (H t (by simp) n m hm)
      (ih (fun c hc => H c (by simp [hc])) m n2 hrest) ?_
    intro a ha hb
    have h1 := spanT_bounds t n m hm a ha
    have h2 := spanF_bounds rest m n2 hrest a hb
    omega

theorem spanT_nodup : ∀ (t : HTree) (n n2 : Nat), SpanT n t n2 →
    (postorderH t).Nodup := by
  intro t
  induction t using htreeMemberInduction with
  | step hh ch IH =>
    intro n n2 hs
    obtain ⟨hroot, hf⟩ := hs
    simp only [postorderH]
    refine List.Nodup.append (spanF_nodup_of ch (fun c hc => IH c hc) (n + 1) n2 hf)
      (by simp) ?_
    intro a ha hb
    simp at hb
    have h1 := spanF_bounds ch (n + 1) n2 hf a ha
    omega

theorem rootH_spanT (t : HTree) (n n2 : Nat) (h : SpanT n t n2) : rootH t = n := by
  cases t with
  | node hh ch => exact h.1

theorem specEntries_span_of (T : Type) (items : List (MenuEntry T))
    (H : ∀ e ∈ items, ∀ n, SpanF n (specEntry e n).1 (specEntry e n).2) :
    ∀ n, SpanF n (specEntries items n).1 (specEntries items n).2 := by
  induction items with
  | nil => intro n; simp [specEntries, SpanF]
  | cons e rest ih =>
    intro n
    simp only [specEntries]
    exact spanF_append _ _ _ _ _ (H e (by simp) n)
      (ih (fun x hx => H x (by simp [hx])) (specEntry e n).2)

theorem specEntry_span (T : Type) : ∀ (e : MenuEntry T) (n : Nat),
    SpanF n (specEntry e n).1 (specEntry e n).2 := by
  intro e
  induction e using menuEntryMemberInduction with
  | hitem id label enabled checked icon => intro n; simp [specEntry, SpanF]
  | hsep => intro n; simp [specEntry, SpanF]
  | hsub label enabled items IH =>
    intro n
    simp only [specEntry, SpanF]
    refine ⟨(specMenu items n).2, ?_, rfl⟩
    simp only [specMenu, SpanT]
    exact ⟨trivial, specEntries_span_of T items (fun e he n0 => IH e he n0) (n + 1)⟩

theorem specEntries_span (T : Type) (items : List (MenuEntry T)) (n : Nat) :
    SpanF n (specEntries items n).1 (specEntries items n).2 :=
  specEntries_span_of T items (fun e _ => specEntry_span T e) n

theorem specMenu_span (T : Type) (items : List (MenuEntry T)) (n : Nat) :
    SpanT n (specMenu items n).1 (specMenu items n).2 := by
  simp only [specMenu, SpanT]
  exact ⟨trivial, specEntries_span T items (n + 1)⟩

theorem specMenu_root (T : Type) (items : List (MenuEntry T)) (n : Nat) :
    rootH (specMenu items n).1 = n := by
  simp [specMenu, rootH]

theorem postorderF_append (l1 l2 : List HTree) :
    postorderF (l1 ++ l2) = postorderF l1 ++ postorderF l2 := by
  induction l1 with
  | nil => simp [postorderF]
  | cons t ts ih => simp [postorderF, ih]

theorem preorderF_append (l1 l2 : List HTree) :
    preorderF (l1 ++ l2) = preorderF l1 ++ preorderF l2 := by
  induction l1 with
  | nil => simp [preorderF]
  | cons t ts ih => simp [preorderF, ih]

theorem postF_perm_preF_of (ts : List HTree)
    (H : ∀ c ∈ ts, (postorderH c).Perm (preorderH c)) :
    (postorderF ts).Perm (preorderF ts) := by
  induction ts with
  | nil => simp [postorderF, preorderF]
  | cons t rest ih =>
    simp only [postorderF, preorderF]
    exact List.Perm.append (H t (by simp)) (ih (fun c hc => H c (by simp [hc])))

theorem postorder_perm_preorder : ∀ t : HTree, (postorderH t).Perm (preorderH t) := by
  intro t
  induction t using htreeMemberInduction with
  | step h ch IH =>
    simp only [postorderH, preorderH]
    exact (List.perm_append_singleton h _).trans
      (List.Perm.cons h (postF_perm_preF_of ch IH))

theorem rootH_mem_postorder (t : HTree) : rootH t ∈ postorderH t := by
  cases t with
  | node h ch => simp [rootH, postorderH]

theorem mem_postorderF (ts : List HTree) (h : Nat) :
    h ∈ postorderF ts ↔ ∃ t ∈ ts, h ∈ postorderH t := by
  induction ts with
  | nil => simp [postorderF]
  | cons t rest ih =>
    simp only [postorderF, List.mem_append, ih, List.mem_cons]
    constructor
    · rintro (hm | ⟨u, hu, hm⟩)
      · exact ⟨t, Or.inl rfl, hm⟩
      · exact ⟨u, Or.inr hu, hm⟩
    · rintro ⟨u, hu | hu, hm⟩
      · exact Or.inl (hu ▸ hm)
      · exact Or.inr ⟨u, hu, hm⟩

theorem postorderH_sublist_postorderF (ts : List HTree) (t : HTree) (ht : t ∈ ts) :
    (postorderH t).Sublist (postorderF ts) := by
  induction ts with
  | nil => simp at ht
  | cons u rest ih =>
    rcases List.mem_cons.1 ht with h | h
    · subst h
      simpa [postorderF] using List.sublist_append_left _ _
    · exact (ih h).trans (by simpa [postorderF] using List.sublist_append_right _ _)

theorem representsF_append (heap : MenuHeap) (l1 l2 : List HTree) :
    RepresentsF heap (l1 ++ l2) ↔ RepresentsF heap l1 ∧ RepresentsF heap l2 := by
  induction l1 with
  | nil => simp [RepresentsF]
  | cons t ts ih =>
    simp only [List.cons_append, RepresentsF, ih]
    tauto

theorem representsF_mem (heap : MenuHeap) (ts : List HTree) (t : HTree)
    (h : RepresentsF heap ts) (hm : t ∈ ts) : RepresentsT heap t := by
  induction ts with
  | nil => simp at hm
  | cons u rest ih =>
    rcases List.mem_cons.1 hm with hm | hm
    · exact hm ▸ h.1
    · exact ih h.2 hm

theorem representsF_of_mem (heap : MenuHeap) (ts : List HTree)
    (h : ∀ t ∈ ts, RepresentsT heap t) : RepresentsF heap ts := by
  induction ts with
  | nil => trivial
  | cons u rest ih =>
    exact ⟨h u (by simp), ih (fun t ht => h t (by simp [ht]))⟩

theorem representsT_mono : ∀ (t : HTree) (heap heap2 : MenuHeap),
    (∀ h ∈ postorderH t, heap2.itemsOf h = heap.itemsOf h) →
    RepresentsT heap t → RepresentsT heap2 t := by
  intro t
  induction t using htreeMemberInduction with
  | step h ch IH =>
    intro heap heap2 hsame hr
    obtain ⟨hpc, hf⟩ := hr
    refine ⟨?_, ?_⟩
    · rw [hsame h (by simp [postorderH])]
      exact hpc
    · refine representsF_of_mem heap2 ch (fun c hc => ?_)
      refine IH c hc heap heap2 (fun x hx => ?_) (representsF_mem heap ch c hf hc)
      refine hsame x ?_
      simp only [postorderH, List.mem_append]
      exact Or.inl ((mem_postorderF ch x).2 ⟨c, hc, hx⟩)

/-- In a realized tree, every MF_POPUP child handle of any tree node appears
before that node in the post-order destruction sequence: `[c, p]` is a
sublist of the post-order flattening. -/
theorem representsT_child_before_parent : ∀ (t : HTree) (heap : MenuHeap),
    RepresentsT heap t → ∀ p, p ∈ postorderH t →
    ∀ c ∈ popupChildren (heap.itemsOf p), List.Sublist [c, p] (postorderH t) := by
  intro t
  induction t using htreeMemberInduction with
  | step h ch IH =>
    intro heap hr p hp c hc
    obtain ⟨hpc, hf⟩ := hr
    simp only [postorderH, List.mem_append, List.mem_singleton] at hp
    rcases hp with hp | hp
    · obtain ⟨tc, htc, hmem⟩ := (mem_postorderF ch p).1 hp
      have hsub := IH tc htc heap (representsF_mem heap ch tc hf htc) p hmem c hc
      refine hsub.trans ((postorderH_sublist_postorderF ch tc htc).trans ?_)
      simpa [postorderH] using List.sublist_append_left _ _
    · subst hp
      rw [hpc] at hc
      obtain ⟨tc, htc, hroot⟩ := List.mem_map.1 hc
      have hcm : c ∈ postorderF ch :=
        (mem_postorderF ch c).2 ⟨tc, htc, hroot ▸ rootH_mem_postorder tc⟩
      have h1 : List.Sublist [c] (postorderF ch) := List.singleton_sublist.2 hcm
      have h2 : List.Sublist [p] [p] := List.Sublist.refl _
      simpa [postorderH] using List.Sublist.append h1 h2

theorem popupChildren_append (l1 l2 : List NativeMenuItem) :
    popupChildren (l1 ++ l2) = popupChildren l1 ++ popupChildren l2 := by
  simp [popupChildren, List.filterMap_append]

theorem entriesOK_of (T : Type) (items : List (MenuEntry T))
    (H : ∀ e ∈ items, EntryOK T e) : EntriesOK T items := by
  induction items with
  | nil =>
    intro m heap hmenu hwf hk
    have hb : buildEntries hmenu ([] : List (MenuEntry T)) m heap = (m, heap) := by
      simp [buildEntries]
    have hs : specEntries ([] : List (MenuEntry T)) heap.next = ([], heap.next) := by
      simp [specEntries]
    rw [hb, hs]
    exact ⟨rfl, hwf, by simp [preorderF], fun h _ _ => rfl,
      ⟨[], by simp, by simp [popupChildren]⟩, by simp [RepresentsF]⟩
  | cons e rest ih =>
    intro m heap hmenu hwf hk
    obtain ⟨e_next, e_wf, e_keys, e_frame, ⟨ni1, e_items, e_pc⟩, e_rep⟩ :=
      H e (by simp) m heap hmenu hwf hk
    have hk2 : hmenu ∈ keysOf (buildEntry hmenu e m heap).2 := by
      rw [e_keys]; exact List.mem_append_left _ hk
    obtain ⟨r_next, r_wf, r_keys, r_frame, ⟨ni2, r_items, r_pc⟩, r_rep⟩ :=
      ih (fun x hx => H x (by simp [hx])) (buildEntry hmenu e m heap).1
        (buildEntry hmenu e m heap).2 hmenu e_wf hk2
    rw [e_next] at r_next r_keys r_pc r_rep
    have hmono : heap.next ≤ (specEntry e heap.next).2 :=
      spanF_le _ _ _ (specEntry_span T e heap.next)
    have hmlt : hmenu < heap.next := (hwf.1 hmenu hk).2
    have e_bounds := spanF_bounds _ _ _ (specEntry_span T e heap.next)
    have hb : buildEntries hmenu (e :: rest) m heap
        = buildEntries hmenu rest (buildEntry hmenu e m heap).1
            (buildEntry hmenu e m heap).2 := by
      simp [buildEntries]
    have hs : specEntries (e :: rest) heap.next
        = ((specEntry e heap.next).1 ++ (specEntries rest (specEntry e heap.next).2).1,
           (specEntries rest (specEntry e heap.next).2).2) := by
      simp [specEntries]
    rw [hb, hs]
    refine ⟨r_next, r_wf, ?_, ?_, ?_, ?_⟩
    · rw [r_keys, e_keys, preorderF_append, List.append_assoc]
    · intro h hne hlt
      rw [r_frame h hne (by rw [e_next]; omega), e_frame h hne hlt]
    · refine ⟨ni1 ++ ni2, ?_, ?_⟩
      · rw [r_items, e_items, List.append_assoc]
      · rw [popupChildren_append, e_pc, r_pc, List.map_append]
    · rw [representsF_append]
      refine ⟨?_, r_rep⟩
      refine representsF_of_mem _ _ (fun t ht => ?_)
      refine representsT_mono t _ _ (fun x hx => ?_)
        (representsF_mem _ _ t e_rep ht)
      have hxb : heap.next ≤ x ∧ x < (specEntry e heap.next).2 :=
        e_bounds x ((mem_postorderF _ x).2 ⟨t, ht, hx⟩)
      exact r_frame x (by omega) (by rw [e_next]; omega)

theorem menuOK_of (T : Type) (items : List (MenuEntry T))
    (He : EntriesOK T items) : MenuOK T items := by
  intro m heap hwf
  have hb : build_popup_menu items m heap
      = ((CreatePopupMenu heap).1,
         (buildEntries (CreatePopupMenu heap).1 items m (CreatePopupMenu heap).2).1,
         (buildEntries (CreatePopupMenu heap).1 items m (CreatePopupMenu heap).2).2) := by
    simp [build_popup_menu]
  have hs : specMenu items heap.next
      = (.node heap.next (specEntries items (heap.next + 1)).1,
         (specEntries items (heap.next + 1)).2) := by
    simp [specMenu]
  have hwf1 : HeapWF (CreatePopupMenu heap).2 := create_wf heap hwf
  have hknew : heap.next ∉ keysOf heap := fun hc => absurd (hwf.1 _ hc).2 (lt_irrefl _)
  have hk1 : heap.next ∈ keysOf (CreatePopupMenu heap).2 := by
    rw [create_keys]; simp
  obtain ⟨r_next, r_wf, r_keys, r_frame, ⟨ni, r_items, r_pc⟩, r_rep⟩ :=
    He m (CreatePopupMenu heap).2 (CreatePopupMenu heap).1 hwf1 (by rw [create_fst]; exact hk1)
  rw [create_fst] at r_next r_wf r_keys r_frame r_rep r_items
  rw [create_next] at r_next r_keys r_pc r_rep r_frame
  rw [hb, hs, create_fst]
  refine ⟨rfl, r_next, r_wf, ?_, ?_, ?_⟩
  · rw [r_keys, create_keys]
    simp [preorderH]
  · intro h hlt
    rw [r_frame h (by omega) (by omega), create_itemsOf_ne heap h (by omega)]
  · simp only [RepresentsT]
    refine ⟨?_, r_rep⟩
    rw [r_items, create_itemsOf_new heap hknew]
    simpa using r_pc

theorem entryOK_all (T : Type) : ∀ e : MenuEntry T, EntryOK T e := by
  intro e
  induction e using menuEntryMemberInduction with
  | hitem id label enabled checked icon =>
    intro m heap hmenu hwf hk
    have hb : buildEntry hmenu (.item id label enabled checked icon) m heap
        = ((m.insert id).1, heap.appendItem hmenu
            (.stringItem (m.insert id).2 (!enabled) (checked == some true) label icon)) := by
      simp [buildEntry, add_menu_item]
    have hs : specEntry (MenuEntry.item id label enabled checked icon : MenuEntry T) heap.next
        = ([], heap.next) := by
      simp [specEntry]
    rw [hb, hs]
    exact ⟨append_next _ _ _, append_wf _ _ _ hwf, by rw [append_keys]; simp [preorderF],
      fun h hne _ => append_itemsOf_ne heap hmenu h _ hne,
      ⟨[.stringItem (m.insert id).2 (!enabled) (checked == some true) label icon],
        append_itemsOf_self heap hmenu _ hk, by simp [popupChildren]⟩,
      by simp [RepresentsF]⟩
  | hsep =>
    intro m heap hmenu hwf hk
    have hb : buildEntry hmenu (MenuEntry.separator : MenuEntry T) m heap
        = (m, heap.appendItem hmenu .separator) := by
      simp [buildEntry]
    have hs : specEntry (MenuEntry.separator : MenuEntry T) heap.next = ([], heap.next) := by
      simp [specEntry]
    rw [hb, hs]
    exact ⟨append_next _ _ _, append_wf _ _ _ hwf, by rw [append_keys]; simp [preorderF],
      fun h hne _ => append_itemsOf_ne heap hmenu h _ hne,
      ⟨[.separator], append_itemsOf_self heap hmenu _ hk, by simp [popupChildren]⟩,
      by simp [RepresentsF]⟩
  | hsub label enabled items IH =>
    intro m heap hmenu hwf hk
    obtain ⟨m_fst, m_next, m_wf, m_keys, m_frame, m_rep⟩ :=
      menuOK_of T items (entriesOK_of T items IH) m heap hwf
    have hb : buildEntry hmenu (MenuEntry.submenu label enabled items) m heap
        = ((build_popup_menu items m heap).2.1,
           (build_popup_menu items m heap).2.2.appendItem hmenu
             (.popup (build_popup_menu items m heap).1 (!enabled) label)) := by
      simp [buildEntry]
    have hs : specEntry (MenuEntry.submenu label enabled items) heap.next
        = ([(specMenu items heap.next).1], (specMenu items heap.next).2) := by
      simp [specEntry]
    have hmlt : hmenu < heap.next := (hwf.1 hmenu hk).2
    have hkgrown : hmenu ∈ keysOf (build_popup_menu items m heap).2.2 := by
      rw [m_keys]; exact List.mem_append_left _ hk
    have t_bounds := spanT_bounds _ _ _ (specMenu_span T items heap.next)
    rw [hb, hs]
    refine ⟨?_, ?_, ?_, ?_, ?_, ?_⟩
    · rw [append_next]
      exact m_next
    · exact append_wf _ _ _ m_wf
    · rw [append_keys, m_keys]
      simp [preorderF]
    · intro h hne hlt
      rw [append_itemsOf_ne _ hmenu h _ hne, m_frame h hlt]
    · refine ⟨[.popup (build_popup_menu items m heap).1 (!enabled) label], ?_, ?_⟩
      · rw [append_itemsOf_self _ hmenu _ hkgrown, m_frame hmenu hmlt]
      · simp [popupChildren, m_fst, specMenu_root]
    · refine ⟨?_, trivial⟩
      refine representsT_mono _ _ _ (fun x hx => ?_) m_rep
      have hxb := t_bounds x hx
      exact append_itemsOf_ne _ hmenu x _ (by omega)

theorem getSubMenu_eq_subAtL (heap : MenuHeap) (hmenu i : Nat) :
    GetSubMenu heap hmenu i = subAtL (heap.itemsOf hmenu) i := rfl

theorem subAtL_cons_zero (x : NativeMenuItem) (xs : List NativeMenuItem) :
    subAtL (x :: xs) 0
      = (match x with
         | .popup child _ _ => child
         | _ => 0) := by
  cases x <;> simp [subAtL]

theorem subAtL_cons_succ (x : NativeMenuItem) (xs : List NativeMenuItem) (i : Nat) :
    subAtL (x :: xs) (i + 1) = subAtL xs i := by
  simp [subAtL]

theorem range_flatMap_sub (l : List NativeMenuItem) (f : Nat → List Nat)
    (hnz : (0 : Nat) ∉ popupChildren l) :
    ((List.range l.length).flatMap fun i =>
        if subAtL l i ≠ 0 then f (subAtL l i) else [])
      = (popupChildren l).flatMap f := by
  induction l with
  | nil => simp [popupChildren]
  | cons x xs ih =>
    rw [List.length_cons, List.range_succ_eq_map]
    rw [List.flatMap_cons, List.flatMap_map]
    have htail : ((List.range xs.length).flatMap fun i =>
        if subAtL (x :: xs) (i + 1) ≠ 0 then f (subAtL (x :: xs) (i + 1)) else [])
        = ((List.range xs.length).flatMap fun i =>
            if subAtL xs i ≠ 0 then f (subAtL xs i) else []) := by
      apply List.flatMap_congr
      intro i _
      rw [subAtL_cons_succ]
    cases x with
    | popup c g lb =>
      have hpc : popupChildren (NativeMenuItem.popup c g lb :: xs)
          = c :: popupChildren xs := by simp [popupChildren]
      rw [hpc] at hnz ⊢
      have hc0 : c ≠ 0 := fun hc => hnz (by simp [hc])
      rw [List.flatMap_cons]
      have h1 : (if subAtL (NativeMenuItem.popup c g lb :: xs) 0 ≠ 0
          then f (subAtL (NativeMenuItem.popup c g lb :: xs) 0) else []) = f c := by
        rw [subAtL_cons_zero]; simp [hc0]
      rw [h1, htail, ih (fun hc => hnz (by simp [hc]))]
    | stringItem w g ck lb bm =>
      have hpc : popupChildren (NativeMenuItem.stringItem w g ck lb bm :: xs)
          = popupChildren xs := by simp [popupChildren]
      rw [hpc] at hnz ⊢
      have h1 : (if subAtL (NativeMenuItem.stringItem w g ck lb bm :: xs) 0 ≠ 0
          then f (subAtL (NativeMenuItem.stringItem w g ck lb bm :: xs) 0) else []) = [] := by
        rw [subAtL_cons_zero]; simp
      rw [h1, htail, ih hnz]
      simp
    | separator =>
      have hpc : popupChildren (NativeMenuItem.separator :: xs)
          = popupChildren xs := by simp [popupChildren]
      rw [hpc] at hnz ⊢
      have h1 : (if subAtL (NativeMenuItem.separator :: xs) 0 ≠ 0
          then f (subAtL (NativeMenuItem.separator :: xs) 0) else []) = [] := by
        rw [subAtL_cons_zero]; simp
      rw [h1, htail, ih hnz]
      simp

theorem spanF_mem_span (ts : List HTree) (m n2 : Nat) (hs : SpanF m ts n2) :
    ∀ t ∈ ts, ∃ a b, m ≤ a ∧ SpanT a t b ∧ b ≤ n2 := by
  induction ts generalizing m with
  | nil => intro t ht; simp at ht
  | cons u rest ih =>
    intro t ht
    obtain ⟨k, hk, hrest⟩ := hs
    rcases List.mem_cons.1 ht with h | h
    · exact ⟨m, k, le_refl m, h ▸ hk, spanF_le rest k n2 hrest⟩
    · obtain ⟨a, b, ha, hab, hb⟩ := ih k hrest t h
      exact ⟨a, b, le_trans (le_of_lt (spanT_lt u m k hk)) ha, hab, hb⟩

/-- On a heap that realizes a handle tree allocated as a span, the source's
`destroy_menu_tree` performs exactly the post-order sequence of `DestroyMenu`
calls, provided the fuel covers the tree's handle count. -/
theorem destroy_eq_postorder (fuel : Nat) : ∀ (heap : MenuHeap) (t : HTree) (n n2 : Nat),
    SpanT n t n2 → RepresentsT heap t → 0 < n → n2 - n ≤ fuel + 1 →
    destroy_menu_tree heap fuel (rootH t) = postorderH t := by
  induction fuel with
  | zero =>
    intro heap t n n2 hspan hrep hn hsz
    cases t with
    | node h ch =>
      obtain ⟨hroot, hf⟩ := hspan
      have h1 : n + 1 ≤ n2 := spanF_le ch (n + 1) n2 hf
      have h2 : n2 = n + 1 := by omega
      have hnil : ch = [] := spanF_nil_of_eq ch (n + 1) (h2 ▸ hf)
      subst hnil hroot
      simp [destroy_menu_tree, rootH, postorderH, postorderF]
  | succ fuel ih =>
    intro heap t n n2 hspan hrep hn hsz
    cases t with
    | node h ch =>
      obtain ⟨hroot, hf⟩ := hspan
      obtain ⟨hpc, hrepf⟩ := hrep
      have hnz : (0 : Nat) ∉ popupChildren (heap.itemsOf h) := by
        rw [hpc]
        intro hc
        obtain ⟨tc, htc, hr⟩ := List.mem_map.1 hc
        obtain ⟨a, b, ha, hab, hb⟩ := spanF_mem_span ch (n + 1) n2 hf tc htc
        have := rootH_spanT tc a b hab
        omega
      have hu : destroy_menu_tree heap (fuel + 1) h
          = ((List.range (GetMenuItemCount heap h)).flatMap fun i =>
              if GetSubMenu heap h i ≠ 0 then destroy_menu_tree heap fuel (GetSubMenu heap h i)
              else []) ++ [h] := by
        simp [destroy_menu_tree]
      rw [show rootH (HTree.node h ch) = h from rfl, hu]
      have hcnt : GetMenuItemCount heap h = (heap.itemsOf h).length := rfl
      have hflat : ((List.range (GetMenuItemCount heap h)).flatMap fun i =>
              if GetSubMenu heap h i ≠ 0 then destroy_menu_tree heap fuel (GetSubMenu heap h i)
              else [])
          = (popupChildren (heap.itemsOf h)).flatMap (destroy_menu_tree heap fuel) := by
        rw [hcnt]
        have := range_flatMap_sub (heap.itemsOf h) (destroy_menu_tree heap fuel) hnz
        rw [← this]
        apply List.flatMap_congr
        intro i _
        rw [getSubMenu_eq_subAtL]
      rw [hflat, hpc]
      have hforest : ∀ (ts : List HTree) (m : Nat), SpanF m ts n2 → RepresentsF heap ts →
          n + 1 ≤ m → ((ts.map rootH).flatMap (destroy_menu_tree heap fuel)) = postorderF ts := by
        intro ts
        induction ts with
        | nil => intro m _ _ _; simp [postorderF]
        | cons tc rest ihf =>
          intro m hs hrf hm
          obtain ⟨k, hk, hrest⟩ := hs
          have hrec : destroy_menu_tree heap fuel (rootH tc) = postorderH tc := by
            refine ih heap tc m k hk hrf.1 (by omega) ?_
            have h1 := spanT_lt tc m k hk
            have h2 := spanF_le rest k n2 hrest
            omega
          simp only [List.map_cons, List.flatMap_cons, postorderF]
          rw [hrec, ihf k hrest hrf.2 (by have := spanT_lt tc m k hk; omega)]
      rw [hforest ch (n + 1) hf hrepf (le_refl _)]
      simp [postorderH]

/-- Claim C9: for every built menu tree, destroy(handle) visits and destroys
every submenu handle exactly once, bottom-up, before destroying its parent
menu handle. -/
theorem destroy_menu_tree_bottom_up (T : Type) (entries : List (MenuEntry T)) :
    MenuDestroyBottomUp T entries := by
  obtain ⟨m_fst, m_next, m_wf, m_keys, m_frame, m_rep⟩ :=
    menuOK_of T entries (entriesOK_of T entries (fun e _ => entryOK_all T e))
      (IdMap.new T) MenuHeap.empty heapWF_empty
  have hnext1 : MenuHeap.empty.next = 1 := rfl
  rw [hnext1] at m_fst m_next m_keys m_rep
  have hspan := specMenu_span T entries 1
  have hroot : rootH (specMenu entries 1).1 = 1 := specMenu_root T entries 1
  have hdestroy : destroy_menu_tree (build_popup_menu entries (IdMap.new T) MenuHeap.empty).2.2
      (build_popup_menu entries (IdMap.new T) MenuHeap.empty).2.2.next
      (build_popup_menu entries (IdMap.new T) MenuHeap.empty).1
      = postorderH (specMenu entries 1).1 := by
    rw [m_fst]
    have hd := destroy_eq_postorder
      (build_popup_menu entries (IdMap.new T) MenuHeap.empty).2.2.next
      (build_popup_menu entries (IdMap.new T) MenuHeap.empty).2.2
      (specMenu entries 1).1 1 (specMenu entries 1).2 hspan m_rep (by omega)
      (by rw [m_next]; omega)
    rw [hroot] at hd
    exact hd
  have hkeys2 : keysOf (build_popup_menu entries (IdMap.new T) MenuHeap.empty).2.2
      = preorderH (specMenu entries 1).1 := by
    rw [m_keys]
    simp [MenuHeap.empty, keysOf]
  refine ⟨?_, ?_, ?_⟩
  · rw [hdestroy]
    exact spanT_nodup _ _ _ hspan
  · rw [hdestroy, hkeys2]
    exact postorder_perm_preorder _
  · intro p c hc
    rw [hdestroy]
    by_cases hp : p ∈ postorderH (specMenu entries 1).1
    · exact representsT_child_before_parent _ _ m_rep p hp c hc
    · exfalso
      have hnk : p ∉ keysOf (build_popup_menu entries (IdMap.new T) MenuHeap.empty).2.2 := by
        rw [hkeys2]
        intro hmem
        exact hp ((postorder_perm_preorder _).mem_iff.2 hmem)
      rw [itemsOf_not_key _ p hnk] at hc
      simp [popupChildren] at hc

theorem preorderIds_cons (e : MenuEntry T) (rest : List (MenuEntry T)) :
    preorderIds (e :: rest) = entryIds e ++ preorderIds rest := by
  cases e <;> simp [preorderIds, entryIds]

theorem entriesIds_of (T : Type) (items : List (MenuEntry T))
    (H : ∀ e ∈ items, EntryIdsOK T e) :
    ∀ (hmenu : Nat) (m : IdMap T) (heap : MenuHeap),
      (buildEntries hmenu items m heap).1.ids = m.ids ++ preorderIds items := by
  induction items with
  | nil =>
    intro hmenu m heap
    simp [buildEntries, preorderIds]
  | cons e rest ih =>
    intro hmenu m heap
    have hb : buildEntries hmenu (e :: rest) m heap
        = buildEntries hmenu rest (buildEntry hmenu e m heap).1
            (buildEntry hmenu e m heap).2 := by
      simp [buildEntries]
    rw [hb, ih (fun x hx => H x (by simp [hx])), H e (by simp), preorderIds_cons,
      List.append_assoc]

theorem menuIds_of (T : Type) (items : List (MenuEntry T))
    (H : ∀ e ∈ items, EntryIdsOK T e) :
    ∀ (m : IdMap T) (heap : MenuHeap),
      (build_popup_menu items m heap).2.1.ids = m.ids ++ preorderIds items := by
  intro m heap
  have hb : (build_popup_menu items m heap).2.1
      = (buildEntries (CreatePopupMenu heap).1 items m (CreatePopupMenu heap).2).1 := by
    simp [build_popup_menu]
  rw [hb, entriesIds_of T items H]

theorem entryIdsOK_all (T : Type) : ∀ e : MenuEntry T, EntryIdsOK T e := by
  intro e
  induction e using menuEntryMemberInduction with
  | hitem id label enabled checked icon =>
    intro hmenu m heap
    have hb : (buildEntry hmenu (.item id label enabled checked icon) m heap).1
        = (m.insert id).1 := by
      simp [buildEntry, add_menu_item]
    rw [hb, IdMap.insert_ids]
    simp [entryIds]
  | hsep =>
    intro hmenu m heap
    have hb : (buildEntry hmenu (MenuEntry.separator : MenuEntry T) m heap).1 = m := by
      simp [buildEntry]
    rw [hb]
    simp [entryIds]
  | hsub label enabled items IH =>
    intro hmenu m heap
    have hb : (buildEntry hmenu (MenuEntry.submenu label enabled items) m heap).1
        = (build_popup_menu items m heap).2.1 := by
      simp [buildEntry]
    rw [hb, menuIds_of T items IH]
    simp [entryIds]

/-- First step of the demonstration build: the "Open" item receives code 1
and its native string item is appended to menu 1. -/
theorem buildEntry_demo_open : buildEntry 1 (MenuEntry.item 10 "Open" true none false)
      (IdMap.new Nat) (⟨2, [(1, [])]⟩ : MenuHeap)
    = (⟨[10]⟩, ⟨2, [(1, [NativeMenuItem.stringItem 1 false false "Open" false])]⟩) := by
  simp only [buildEntry]
  rfl

/-- Second step of the demonstration build: the separator consumes no code
(the id map is unchanged). -/
theorem buildEntry_demo_sep : buildEntry 1 (MenuEntry.separator : MenuEntry Nat) ⟨[10]⟩
      (⟨2, [(1, [NativeMenuItem.stringItem 1 false false "Open" false])]⟩ : MenuHeap)
    = (⟨[10]⟩, ⟨2, [(1, [NativeMenuItem.stringItem 1 false false "Open" false,
        NativeMenuItem.separator])]⟩) := by
  simp only [buildEntry]
  rfl

/-- Third step of the demonstration build: the "Exit" item receives code 2
(the separator before it consumed none). -/
theorem buildEntry_demo_exit : buildEntry 1 (MenuEntry.item 20 "Exit" true none false)
      (⟨[10]⟩ : IdMap Nat)
      (⟨2, [(1, [NativeMenuItem.stringItem 1 false false "Open" false,
        NativeMenuItem.separator])]⟩ : MenuHeap)
    = (⟨[10, 20]⟩, ⟨2, [(1, [NativeMenuItem.stringItem 1 false false "Open" false,
        NativeMenuItem.separator, NativeMenuItem.stringItem 2 false false "Exit" false])]⟩) := by
  simp only [buildEntry]
  rfl

/-- The build loop over the three demonstration entries, chained from the
three single steps. -/
theorem buildEntries_demo : buildEntries 1 [MenuEntry.item 10 "Open" true none false,
      MenuEntry.separator, MenuEntry.item 20 "Exit" true none false]
    (IdMap.new Nat) (⟨2, [(1, [])]⟩ : MenuHeap)
    = (⟨[10, 20]⟩, ⟨2, [(1, [NativeMenuItem.stringItem 1 false false "Open" false,
        NativeMenuItem.separator, NativeMenuItem.stringItem 2 false false "Exit" false])]⟩) := by
  rw [buildEntries.eq_2, buildEntry_demo_open]
  rw [buildEntries.eq_2]
  rw [show ((⟨[10]⟩, ⟨2, [(1, [NativeMenuItem.stringItem 1 false false "Open" false])]⟩)
        : IdMap Nat × MenuHeap).1 = ⟨[10]⟩ from rfl]
  rw [show ((⟨[10]⟩, ⟨2, [(1, [NativeMenuItem.stringItem 1 false false "Open" false])]⟩)
        : IdMap Nat × MenuHeap).2 = ⟨2, [(1, [NativeMenuItem.stringItem 1 false false "Open"
        false])]⟩ from rfl]
  rw [buildEntry_demo_sep, buildEntries.eq_2]
  rw [buildEntry_demo_exit, buildEntries.eq_1]

/-- The full demonstration build, evaluated: handle 1, id map [10, 20], and
one native menu holding the two coded string items around the separator. -/
theorem build_demo_eval : build_popup_menu demoMenu (IdMap.new Nat) MenuHeap.empty
    = (1, ⟨[10, 20]⟩, ⟨2, [(1, [NativeMenuItem.stringItem 1 false false "Open" false,
        NativeMenuItem.separator, NativeMenuItem.stringItem 2 false false "Exit" false])]⟩) := by
  rw [show demoMenu = [MenuEntry.item 10 "Open" true none false, MenuEntry.separator,
        MenuEntry.item 20 "Exit" true none false] from rfl]
  rw [build_popup_menu.eq_1]
  rw [show CreatePopupMenu MenuHeap.empty = (1, ⟨2, [(1, [])]⟩) from rfl]
  rw [show ((1, (⟨2, [(1, [])]⟩ : MenuHeap)) : Nat × MenuHeap).1 = 1 from rfl]
  rw [show ((1, (⟨2, [(1, [])]⟩ : MenuHeap)) : Nat × MenuHeap).2
      = (⟨2, [(1, [])]⟩ : MenuHeap) from rfl]
  rw [buildEntries_demo]

/-- Claim C8: during a single menu build pass, command codes are assigned in
tree pre-order only to Item entries: separators (and submenu headers)
consume no code, so for the 3-entry menu [Item(A), Separator, Item(B)] the
item B receives code 2 and get(2) returns Some(B). -/
theorem menu_codes_preorder_items_only : CodesPreorderItemsOnly := by
  refine ⟨?_, ?_, ?_⟩
  · intro T entries heap
    have hids : (build_popup_menu entries (IdMap.new T) heap).2.1.ids
        = preorderIds entries := by
      rw [menuIds_of T entries (fun e _ => entryIdsOK_all T e)]
      simp [IdMap.new]
    exact ⟨hids, fun j => by rw [IdMap.get_succ, hids]⟩
  · rw [build_demo_eval]
    rfl
  · rw [build_demo_eval]
    rfl

/-- Counterexample to claim C4 as stated: on the Windows backend an empty
entries sequence does NOT yield an absent/null menu handle — the build
returns the non-null handle 1, which refers to an allocated, empty native
menu object. -/
theorem build_empty_menu_not_absent_counterexample :
    (build_popup_menu ([] : List (MenuEntry Nat)) (IdMap.new Nat) MenuHeap.empty).1 = 1 ∧
    (build_popup_menu ([] : List (MenuEntry Nat)) (IdMap.new Nat) MenuHeap.empty).1 ≠ 0 ∧
    keysOf (build_popup_menu ([] : List (MenuEntry Nat)) (IdMap.new Nat) MenuHeap.empty).2.2
      = [1] ∧
    (build_popup_menu ([] : List (MenuEntry Nat)) (IdMap.new Nat) MenuHeap.empty).2.2.itemsOf 1
      = [] := by
  refine ⟨?_, ?_, ?_, ?_⟩ <;>
    simp [build_popup_menu, buildEntries, CreatePopupMenu, MenuHeap.empty, keysOf,
      MenuHeap.itemsOf, List.find?]

/-- Claim C4 amended: only the macOS menu builder maps an empty entries
sequence to "no menu" (an absent handle); the Windows builder instead
returns a non-null handle to an empty native menu object. -/
theorem empty_menu_build_amended : EmptyMenuBuildBehavior := by
  refine ⟨?_, ?_, ?_⟩
  · intro T
    simp [create_menu]
  · intro T entries
    cases entries with
    | nil => simp [create_menu]
    | cons e rest => simp [create_menu]
  · intro T m heap hwf
    have hb : build_popup_menu ([] : List (MenuEntry T)) m heap
        = ((CreatePopupMenu heap).1, m, (CreatePopupMenu heap).2) := by
      simp [build_popup_menu, buildEntries]
    have hknew : heap.next ∉ keysOf heap := fun hc => absurd (hwf.1 _ hc).2 (lt_irrefl _)
    rw [hb]
    refine ⟨create_fst heap, ?_, ?_⟩
    · rw [create_fst]
      have := hwf.2.2
      omega
    · exact create_itemsOf_new heap hknew

/-- Member-based induction principle for the nested inductive `PopupMsg`. -/
theorem popupMsgMemberInduction (motive : PopupMsg → Prop)
    (htimer : ∀ nested, (∀ m ∈ nested, motive m) → motive (.timer nested))
    (hact : ∀ nested, (∀ m ∈ nested, motive m) → motive (.activateInactive nested))
    (hptr : ∀ nested, (∀ m ∈ nested, motive m) → motive (.pointerButton nested))
    (hclose : ∀ nested, (∀ m ∈ nested, motive m) → motive (.closeMsg nested))
    (hother : motive .other) : ∀ m, motive m
  | .timer nested => htimer nested (fun m hm =>
      have : sizeOf m < sizeOf (PopupMsg.timer nested) := by
        have := List.sizeOf_lt_of_mem hm
        simp only [PopupMsg.timer.sizeOf_spec]
        omega
      popupMsgMemberInduction motive htimer hact hptr hclose hother m)
  | .activateInactive nested => hact nested (fun m hm =>
      have : sizeOf m < sizeOf (PopupMsg.activateInactive nested) := by
        have := List.sizeOf_lt_of_mem hm
        simp only [PopupMsg.activateInactive.sizeOf_spec]
        omega
      popupMsgMemberInduction motive htimer hact hptr hclose hother m)
  | .pointerButton nested => hptr nested (fun m hm =>
      have : sizeOf m < sizeOf (PopupMsg.pointerButton nested) := by
        have := List.sizeOf_lt_of_mem hm
        simp only [PopupMsg.pointerButton.sizeOf_spec]
        omega
      popupMsgMemberInduction motive htimer hact hptr hclose hother m)
  | .closeMsg nested => hclose nested (fun m hm =>
      have : sizeOf m < sizeOf (PopupMsg.closeMsg nested) := by
        have := List.sizeOf_lt_of_mem hm
        simp only [PopupMsg.closeMsg.sizeOf_spec]
        omega
      popupMsgMemberInduction motive htimer hact hptr hclose hother m)
  | .other => hother
termination_by m => sizeOf m

theorem closedCount_append_pointer (evs : List PopupEventM) :
    closedCount (evs ++ [.pointerButton]) = closedCount evs := by
  simp [closedCount]

theorem closedCount_append_closed (evs : List PopupEventM) (r : PopupCloseReasonM) :
    closedCount (evs ++ [.closed r]) = closedCount evs + 1 := by
  simp [closedCount]

theorem popupInv_initial (c : Bool) : PopupInv (initialPopupState c) := by
  refine ⟨?_, ?_, ?_, ?_, ?_⟩ <;> simp [initialPopupState, closedCount]

theorem cb_not_installed (st : PopupCallbackState) (msg : PopupMsg)
    (h : st.userdataInstalled = false) : popup_window_callback st msg = st := by
  simp [popup_window_callback, h]

theorem cb_eq_wrap (st : PopupCallbackState) (msg : PopupMsg)
    (h : st.userdataInstalled = true) :
    popup_window_callback st msg
      = wrapStep (popup_window_callback_inner
          { st with recurse_depth := st.recurse_depth + 1 } msg) := by
  rw [show popup_window_callback st msg
      = (if st.userdataInstalled = false then st
         else
           let st1 := { st with recurse_depth := st.recurse_depth + 1 }
           let st2 := popup_window_callback_inner st1 msg
           let userdata_removed := st2.userdata_removed
           let depth := st2.recurse_depth - 1
           let st3 := { st2 with recurse_depth := depth }
           if userdata_removed = true ∧ depth = 0 then { st3 with frees := st3.frees + 1 }
           else st3) from by simp [popup_window_callback]]
  simp only [h, Bool.true_eq_false, if_false, wrapStep]

theorem wrapStep_depth (st2 : PopupCallbackState) :
    (wrapStep st2).recurse_depth = st2.recurse_depth - 1 := by
  unfold wrapStep
  split <;> rfl

theorem wrapStep_removed (st2 : PopupCallbackState) :
    (wrapStep st2).userdata_removed = st2.userdata_removed := by
  unfold wrapStep
  split <;> rfl

theorem wrapStep_inv (st2 : PopupCallbackState) (hd : 1 ≤ st2.recurse_depth)
    (hInv : PopupInv st2) : PopupInv (wrapStep st2) := by
  obtain ⟨h1, h2, h3, h4, h5⟩ := hInv
  have hfrees : st2.frees = 0 := by
    rcases Nat.lt_or_ge st2.frees 1 with h | h
    · omega
    · have := h3 (by omega)
      omega
  unfold wrapStep
  split
  · rename_i hcond
    obtain ⟨hrem, hdep⟩ := hcond
    have hni : st2.userdataInstalled = false := by
      cases hi : st2.userdataInstalled
      · rfl
      · exact absurd hrem (by simp [(h2 hi).2])
    refine ⟨by simp [hfrees], by simp [hni], ?_, ?_, ?_⟩
    · intro _
      exact ⟨hrem, hni, hdep⟩
    · intro _ _
      simp [hfrees]
    · simpa [hrem] using h5
  · rename_i hcond
    unfold PopupInv
    dsimp only
    refine ⟨by omega, ?_, ?_, ?_, ?_⟩
    · intro hi
      exact h2 hi
    · intro hf
      omega
    · intro hrem hdep
      exact absurd ⟨hrem, hdep⟩ hcond
    · exact h5

theorem listOK_of (l : List PopupMsg) (H : ∀ m ∈ l, CbOK m) : ListOK l := by
  induction l with
  | nil =>
    intro st
    have he : popupDispatchList st [] = st := by simp [popupDispatchList]
    rw [he]
    exact ⟨rfl, fun h => h, fun h => h⟩
  | cons m rest ih =>
    intro st
    have he : popupDispatchList st (m :: rest)
        = popupDispatchList (popup_window_callback st m) rest := by
      simp [popupDispatchList]
    rw [he]
    obtain ⟨cd, cm, ci⟩ := H m (by simp) st
    obtain ⟨rd, rm, ri⟩ := ih (fun x hx => H x (by simp [hx])) (popup_window_callback st m)
    exact ⟨by rw [rd, cd], fun h => rm (cm h), fun h => ri (ci h)⟩

theorem bump_inv (st : PopupCallbackState) (hInv : PopupInv st)
    (hinst : st.userdataInstalled = true) :
    PopupInv { st with recurse_depth := st.recurse_depth + 1 } := by
  obtain ⟨h1, h2, h3, h4, h5⟩ := hInv
  obtain ⟨hf0, hr0⟩ := h2 hinst
  unfold PopupInv
  dsimp only
  refine ⟨h1, fun _ => ⟨hf0, hr0⟩, ?_, ?_, h5⟩
  · intro hf; omega
  · intro hrm; rw [hrm] at hr0; exact absurd hr0 (by simp)

theorem close_mid_inv (st : PopupCallbackState) (r : PopupCloseReasonM)
    (hInv : PopupInv st) (hinst : st.userdataInstalled = true) :
    PopupInv { st with
               recurse_depth := st.recurse_depth + 1
               userdataInstalled := false
               userdata_removed := true
               events := st.events ++ [.closed r] } := by
  obtain ⟨h1, h2, h3, h4, h5⟩ := hInv
  obtain ⟨hf0, hr0⟩ := h2 hinst
  unfold PopupInv
  dsimp only
  refine ⟨by omega, by simp, by omega, by omega, ?_⟩
  rw [closedCount_append_closed, h5, hr0]
  simp

theorem pointer_mid_inv (st : PopupCallbackState)
    (hInv : PopupInv st) (hinst : st.userdataInstalled = true) :
    PopupInv { st with
               recurse_depth := st.recurse_depth + 1
               events := st.events ++ [.pointerButton] } := by
  obtain ⟨h1, h2, h3, h4, h5⟩ := hInv
  obtain ⟨hf0, hr0⟩ := h2 hinst
  unfold PopupInv
  dsimp only
  refine ⟨h1, fun _ => ⟨hf0, hr0⟩, by omega, ?_, ?_⟩
  · intro hrm; rw [hrm] at hr0; exact absurd hr0 (by simp)
  · rw [closedCount_append_pointer, h5]

theorem cbOK_all : ∀ m : PopupMsg, CbOK m := by
  intro m
  induction m using popupMsgMemberInduction with
  | htimer nested IH =>
    intro st
    by_cases hb : st.userdataInstalled = true
    · rw [cb_eq_wrap st _ hb]
      have hin : popup_window_callback_inner
          { st with recurse_depth := st.recurse_depth + 1 } (.timer nested)
          = popupDispatchList { st with
                recurse_depth := st.recurse_depth + 1
                userdataInstalled := false
                userdata_removed := true
                events := st.events ++ [.closed .timeout] } nested := by
        simp [popup_window_callback_inner]
      rw [hin]
      obtain ⟨ld, lm, li⟩ := listOK_of nested IH
        { st with
          recurse_depth := st.recurse_depth + 1
          userdataInstalled := false
          userdata_removed := true
          events := st.events ++ [.closed .timeout] }
      refine ⟨?_, ?_, ?_⟩
      · rw [wrapStep_depth, ld]
        simp
      · intro _
        rw [wrapStep_removed]
        exact lm rfl
      · intro hInv
        exact wrapStep_inv _ (by rw [ld]; exact Nat.succ_le_succ (Nat.zero_le _)) (li (close_mid_inv st _ hInv hb))
    · have h0 : st.userdataInstalled = false := by simpa using hb
      rw [cb_not_installed st _ h0]
      exact ⟨rfl, fun h => h, fun h => h⟩
  | hact nested IH =>
    intro st
    by_cases hb : st.userdataInstalled = true
    · rw [cb_eq_wrap st _ hb]
      by_cases hc : st.close_on_click_outside = true
      · have hin : popup_window_callback_inner
            { st with recurse_depth := st.recurse_depth + 1 } (.activateInactive nested)
            = popupDispatchList { st with
                  recurse_depth := st.recurse_depth + 1
                  userdataInstalled := false
                  userdata_removed := true
                  events := st.events ++ [.closed .clickOutside] } nested := by
          simp [popup_window_callback_inner, hc]
        rw [hin]
        obtain ⟨ld, lm, li⟩ := listOK_of nested IH
          { st with
            recurse_depth := st.recurse_depth + 1
            userdataInstalled := false
            userdata_removed := true
            events := st.events ++ [.closed .clickOutside] }
        refine ⟨?_, ?_, ?_⟩
        · rw [wrapStep_depth, ld]
          simp
        · intro _
          rw [wrapStep_removed]
          exact lm rfl
        · intro hInv
          exact wrapStep_inv _ (by rw [ld]; exact Nat.succ_le_succ (Nat.zero_le _)) (li (close_mid_inv st _ hInv hb))
      · have hc0 : st.close_on_click_outside = false := by simpa using hc
        have hin : popup_window_callback_inner
            { st with recurse_depth := st.recurse_depth + 1 } (.activateInactive nested)
            = { st with recurse_depth := st.recurse_depth + 1 } := by
          simp [popup_window_callback_inner, hc0]
        rw [hin]
        refine ⟨by rw [wrapStep_depth]; simp, ?_, ?_⟩
        · intro hrm
          rw [wrapStep_removed]
          exact hrm
        · intro hInv
          exact wrapStep_inv _ (by exact Nat.succ_le_succ (Nat.zero_le _)) (bump_inv st hInv hb)
    · have h0 : st.userdataInstalled = false := by simpa using hb
      rw [cb_not_installed st _ h0]
      exact ⟨rfl, fun h => h, fun h => h⟩
  | hptr nested IH =>
    intro st
    by_cases hb : st.userdataInstalled = true
    · rw [cb_eq_wrap st _ hb]
      have hin : popup_window_callback_inner
          { st with recurse_depth := st.recurse_depth + 1 } (.pointerButton nested)
          = popupDispatchList { st with
                recurse_depth := st.recurse_depth + 1
                events := st.events ++ [.pointerButton] } nested := by
        simp [popup_window_callback_inner]
      rw [hin]
      obtain ⟨ld, lm, li⟩ := listOK_of nested IH
        { st with
          recurse_depth := st.recurse_depth + 1
          events := st.events ++ [.pointerButton] }
      refine ⟨?_, ?_, ?_⟩
      · rw [wrapStep_depth, ld]
        simp
      · intro hrm
        rw [wrapStep_removed]
        exact lm hrm
      · intro hInv
        exact wrapStep_inv _ (by rw [ld]; exact Nat.succ_le_succ (Nat.zero_le _)) (li (pointer_mid_inv st hInv hb))
    · have h0 : st.userdataInstalled = false := by simpa using hb
      rw [cb_not_installed st _ h0]
      exact ⟨rfl, fun h => h, fun h => h⟩
  | hclose nested IH =>
    intro st
    by_cases hb : st.userdataInstalled = true
    · rw [cb_eq_wrap st _ hb]
      have hin : popup_window_callback_inner
          { st with recurse_depth := st.recurse_depth + 1 } (.closeMsg nested)
          = popupDispatchList { st with
                recurse_depth := st.recurse_depth + 1
                userdataInstalled := false
                userdata_removed := true
                events := st.events ++ [.closed .explicit] } nested := by
        simp [popup_window_callback_inner]
      rw [hin]
      obtain ⟨ld, lm, li⟩ := listOK_of nested IH
        { st with
          recurse_depth := st.recurse_depth + 1
          userdataInstalled := false
          userdata_removed := true
          events := st.events ++ [.closed .explicit] }
      refine ⟨?_, ?_, ?_⟩
      · rw [wrapStep_depth, ld]
        simp
      · intro _
        rw [wrapStep_removed]
        exact lm rfl
      · intro hInv
        exact wrapStep_inv _ (by rw [ld]; exact Nat.succ_le_succ (Nat.zero_le _)) (li (close_mid_inv st _ hInv hb))
    · have h0 : st.userdataInstalled = false := by simpa using hb
      rw [cb_not_installed st _ h0]
      exact ⟨rfl, fun h => h, fun h => h⟩
  | hother =>
    intro st
    by_cases hb : st.userdataInstalled = true
    · rw [cb_eq_wrap st _ hb]
      have hin : popup_window_callback_inner
          { st with recurse_depth := st.recurse_depth + 1 } .other
          = { st with recurse_depth := st.recurse_depth + 1 } := by
        simp [popup_window_callback_inner]
      rw [hin]
      refine ⟨by rw [wrapStep_depth]; simp, ?_, ?_⟩
      · intro hrm
        rw [wrapStep_removed]
        exact hrm
      · intro hInv
        exact wrapStep_inv _ (by exact Nat.succ_le_succ (Nat.zero_le _)) (bump_inv st hInv hb)
    · have h0 : st.userdataInstalled = false := by simpa using hb
      rw [cb_not_installed st _ h0]
      exact ⟨rfl, fun h => h, fun h => h⟩

/-- Member-based induction principle for `TrayMsg`. -/
theorem trayMsgMemberInduction (motive : TrayMsg → Prop)
    (hbtn : ∀ nested, (∀ m ∈ nested, motive m) → motive (.trayIconButton nested))
    (hdes : ∀ nested, (∀ m ∈ nested, motive m) → motive (.destroyMsg nested))
    (hother : motive .other) : ∀ m, motive m
  | .trayIconButton nested => hbtn nested (fun m hm =>
      have : sizeOf m < sizeOf (TrayMsg.trayIconButton nested) := by
        have := List.sizeOf_lt_of_mem hm
        simp only [TrayMsg.trayIconButton.sizeOf_spec]
        omega
      trayMsgMemberInduction motive hbtn hdes hother m)
  | .destroyMsg nested => hdes nested (fun m hm =>
      have : sizeOf m < sizeOf (TrayMsg.destroyMsg nested) := by
        have := List.sizeOf_lt_of_mem hm
        simp only [TrayMsg.destroyMsg.sizeOf_spec]
        omega
      trayMsgMemberInduction motive hbtn hdes hother m)
  | .other => hother
termination_by m => sizeOf m

theorem trayCb_all : ∀ (m : TrayMsg) (st : WindowDataState),
    TrayInv st → TrayInv (public_window_callback st m) := by
  intro m
  induction m using trayMsgMemberInduction with
  | hbtn nested IH =>
    intro st hInv
    by_cases hb : st.userdataInstalled = true
    · have hlist : ∀ (l : List TrayMsg), (∀ x ∈ l, ∀ s, TrayInv s →
          TrayInv (public_window_callback s x)) →
          ∀ s, TrayInv s → TrayInv (trayDispatchList s l) := by
        intro l
        induction l with
        | nil =>
          intro _ s hs
          have he : trayDispatchList s [] = s := by simp [trayDispatchList]
          rw [he]; exact hs
        | cons x rest ihl =>
          intro hx s hs
          have he : trayDispatchList s (x :: rest)
              = trayDispatchList (public_window_callback s x) rest := by
            simp [trayDispatchList]
          rw [he]
          exact ihl (fun y hy => hx y (by simp [hy])) _ (hx x (by simp) s hs)
      have hmid : TrayInv { st with
          recurse_depth := st.recurse_depth + 1
          events := st.events ++ [.pointerButton] } := hInv
      have h2 := hlist nested IH _ hmid
      rw [show public_window_callback st (.trayIconButton nested)
          = (let st2 := trayDispatchList { st with
               recurse_depth := st.recurse_depth + 1
               events := st.events ++ [TrayEventM.pointerButton] } nested
             let depth := st2.recurse_depth - 1
             let st3 := { st2 with recurse_depth := depth }
             if st2.userdata_removed = true ∧ depth = 0 then
               { st3 with frees := st3.frees + 1 }
             else st3) from by
        simp [public_window_callback, hb, public_window_callback_inner]]
      simp only
      rw [if_neg (by rw [h2.1]; simp)]
      exact ⟨h2.1, h2.2⟩
    · have h0 : st.userdataInstalled = false := by simpa using hb
      rw [show public_window_callback st (.trayIconButton nested) = st from by
        simp [public_window_callback, h0]]
      exact hInv
  | hdes nested IH =>
    intro st hInv
    by_cases hb : st.userdataInstalled = true
    · have hlist : ∀ (l : List TrayMsg), (∀ x ∈ l, ∀ s, TrayInv s →
          TrayInv (public_window_callback s x)) →
          ∀ s, TrayInv s → TrayInv (trayDispatchList s l) := by
        intro l
        induction l with
        | nil =>
          intro _ s hs
          have he : trayDispatchList s [] = s := by simp [trayDispatchList]
          rw [he]; exact hs
        | cons x rest ihl =>
          intro hx s hs
          have he : trayDispatchList s (x :: rest)
              = trayDispatchList (public_window_callback s x) rest := by
            simp [trayDispatchList]
          rw [he]
          exact ihl (fun y hy => hx y (by simp [hy])) _ (hx x (by simp) s hs)
      have hmid : TrayInv { st with recurse_depth := st.recurse_depth + 1 } := hInv
      have h2 := hlist nested IH _ hmid
      rw [show public_window_callback st (.destroyMsg nested)
          = (let st2 := trayDispatchList
               { st with recurse_depth := st.recurse_depth + 1 } nested
             let depth := st2.recurse_depth - 1
             let st3 := { st2 with recurse_depth := depth }
             if st2.userdata_removed = true ∧ depth = 0 then
               { st3 with frees := st3.frees + 1 }
             else st3) from by
        simp [public_window_callback, hb, public_window_callback_inner]]
      simp only
      rw [if_neg (by rw [h2.1]; simp)]
      exact ⟨h2.1, h2.2⟩
    · have h0 : st.userdataInstalled = false := by simpa using hb
      rw [show public_window_callback st (.destroyMsg nested) = st from by
        simp [public_window_callback, h0]]
      exact hInv
  | hother =>
    intro st hInv
    by_cases hb : st.userdataInstalled = true
    · rw [show public_window_callback st .other
          = (let st2 := { st with recurse_depth := st.recurse_depth + 1 }
             let depth := st2.recurse_depth - 1
             let st3 := { st2 with recurse_depth := depth }
             if st2.userdata_removed = true ∧ depth = 0 then
               { st3 with frees := st3.frees + 1 }
             else st3) from by
        simp [public_window_callback, hb, public_window_callback_inner]]
      simp only
      rw [if_neg (by rw [show ({ st with recurse_depth := st.recurse_depth + 1 } :
            WindowDataState).userdata_removed = false from hInv.1]; simp)]
      exact ⟨hInv.1, hInv.2⟩
    · have h0 : st.userdataInstalled = false := by simpa using hb
      rw [show public_window_callback st .other = st from by
        simp [public_window_callback, h0]]
      exact hInv

theorem trayList_all (l : List TrayMsg) : ∀ s, TrayInv s →
    TrayInv (trayDispatchList s l) := by
  induction l with
  | nil =>
    intro s hs
    have he : trayDispatchList s [] = s := by simp [trayDispatchList]
    rw [he]; exact hs
  | cons x rest ihl =>
    intro s hs
    have he : trayDispatchList s (x :: rest)
        = trayDispatchList (public_window_callback s x) rest := by
      simp [trayDispatchList]
    rw [he]
    exact ihl _ (trayCb_all x s hs)

/-- Claim C10: in the Windows tray backend, no dispatch path ever sets the
userdata_removed flag to true — including the destroy-message branch that
destroys the native window — so the heap-allocated WindowData record
installed at window creation is never deallocated: the flag remains false
in every reachable state of the tray callback dispatcher. -/
theorem tray_userdata_never_removed : TrayNeverFrees := by
  have h : ∀ msgs : List TrayMsg, TrayInv (trayDispatchList initialTrayState msgs) :=
    fun msgs => trayList_all msgs initialTrayState ⟨rfl, rfl⟩
  exact ⟨fun msgs => ⟨(h msgs).1, (h msgs).2⟩, (h [.destroyMsg []]).1, (h [.destroyMsg []]).2⟩

/-- Claim C1: for every native window-callback dispatch sequence in which a
destroy request is observed while the recursion-depth counter is greater
than 0 (a reentrant callback), the per-object lifecycle record
(WindowData/PopupWindowData) is not freed until the depth counter returns
to 0, and once the depth counter is 0 with the removed flag set it is
freed exactly once — no double free and no leak. -/
theorem popup_reentrant_destroy_freed_exactly_once : PopupDestroySafety := by
  refine ⟨?_, ?_, ?_, ?_⟩
  · intro c msgs
    obtain ⟨ld, _, li⟩ := listOK_of msgs (fun m _ => cbOK_all m) (initialPopupState c)
    have hInv := li (popupInv_initial c)
    obtain ⟨h1, h2, h3, h4, h5⟩ := hInv
    have hdep : (popupDispatchList (initialPopupState c) msgs).recurse_depth = 0 := by
      rw [ld]; rfl
    refine ⟨hdep, h1, fun hrm => h4 hrm hdep, fun hf => ⟨(h3 hf).1, (h3 hf).2.1⟩⟩
  · intro msgs
    rw [(trayList_all msgs initialTrayState ⟨rfl, rfl⟩).2]
    omega
  · simp [popupDispatchList, popup_window_callback, popup_window_callback_inner,
      initialPopupState]
  · simp [popupDispatchList, popup_window_callback, popup_window_callback_inner,
      initialPopupState]

/-- Claim C3: for every live popup object, requesting destruction a second
time while destruction is already pending (e.g. calling close() twice)
produces exactly one Closed event and exactly one destruction/free of the
lifecycle record — the second request is a no-op (idempotent close). -/
theorem popup_close_idempotent : PopupCloseIdempotent := by
  intro c n1 n2
  obtain ⟨cd, _, ci⟩ := cbOK_all (.closeMsg n1) (initialPopupState c)
  have hInv := ci (popupInv_initial c)
  obtain ⟨h1, h2, h3, h4, h5⟩ := hInv
  have hdep : (popup_window_callback (initialPopupState c) (.closeMsg n1)).recurse_depth
      = 0 := by rw [cd]; rfl
  have hrm : (popup_window_callback (initialPopupState c) (.closeMsg n1)).userdata_removed
      = true := by
    rw [cb_eq_wrap _ _ (show (initialPopupState c).userdataInstalled = true from rfl),
      show popup_window_callback_inner
          { initialPopupState c with recurse_depth := (initialPopupState c).recurse_depth + 1 }
          (.closeMsg n1)
        = popupDispatchList { initialPopupState c with
            recurse_depth := (initialPopupState c).recurse_depth + 1
            userdataInstalled := false
            userdata_removed := true
            events := (initialPopupState c).events ++ [.closed .explicit] } n1 from by
        simp [popup_window_callback_inner], wrapStep_removed]
    exact (listOK_of n1 (fun m _ => cbOK_all m) _).2.1 rfl
  have hfr : (popup_window_callback (initialPopupState c) (.closeMsg n1)).frees = 1 :=
    h4 hrm hdep
  have hni : (popup_window_callback (initialPopupState c) (.closeMsg n1)).userdataInstalled
      = false := (h3 hfr).2.1
  refine ⟨cb_not_installed _ _ hni, ?_, hfr⟩
  rw [h5, hrm]
  simp

theorem createTrays_chan (E : Type) (m : TrayManagerModel E) (n : Nat) :
    (m.createTrays n).chan = m.chan ∧ (m.createTrays n).proxyStrong
      = m.proxyStrong + 2 * n := by
  induction n generalizing m with
  | zero => simp [TrayManagerModel.createTrays]
  | succ n ih =>
    have h := ih m.create_tray
    simp only [TrayManagerModel.createTrays] at h ⊢
    refine ⟨h.1, ?_⟩
    rw [h.2]
    simp [TrayManagerModel.create_tray]
    omega

theorem dropTrays_chan (E : Type) (m : TrayManagerModel E) (n : Nat)
    (h : n < m.proxyStrong) :
    (m.dropTrays n).chan = m.chan ∧ (m.dropTrays n).proxyStrong
      = m.proxyStrong - n := by
  induction n generalizing m with
  | zero => simp [TrayManagerModel.dropTrays]
  | succ n ih =>
    have hs : m.proxyStrong - 1 ≠ 0 := by omega
    have hdrop : m.drop_tray
        = { chan := m.chan, proxyStrong := m.proxyStrong - 1 } := by
      simp [TrayManagerModel.drop_tray, hs]
    simp only [TrayManagerModel.dropTrays]
    rw [hdrop]
    have h2 := ih { chan := m.chan, proxyStrong := m.proxyStrong - 1 }
      (by dsimp; omega)
    refine ⟨h2.1, ?_⟩
    rw [h2.2]
    dsimp
    omega

/-- Counterexample to claim C5 as stated: create one tray from a fresh
Manager, destroy it while the Manager is alive — `recv` on the Manager's
empty queue blocks; it does not return Disconnected, because the Manager's
own `callback_proxy` still holds a Sender. -/
theorem recv_after_destroy_all_blocks_counterexample :
    (destroyAllTrays Nat 1).chan.queue = [] ∧
    (destroyAllTrays Nat 1).chan.senders = 1 ∧
    ((destroyAllTrays Nat 1).chan.recv).1 = RecvOutcome.blocks ∧
    ((destroyAllTrays Nat 1).chan.recv).1 ≠ RecvOutcome.disconnected := by
  refine ⟨rfl, rfl, rfl, ?_⟩
  intro h
  simp [destroyAllTrays, TrayManagerModel.new, TrayManagerModel.createTrays,
    TrayManagerModel.create_tray, TrayManagerModel.dropTrays,
    TrayManagerModel.drop_tray, Channel.recv] at h

/-- Claim C5 amended: `recv` reports Disconnected, distinctly from
`try_recv`'s Empty, exactly when every Sender is gone; in this program each
created tray leaks a proxy reference into its never-freed `WindowData`, so
destroying every created object leaves the Sender alive and `recv`
blocking — the Disconnected report is unreachable by destroying objects. -/
theorem recv_disconnected_amended : RecvDisconnection := by
  constructor
  · intro E c hq
    by_cases hs : c.senders = 0 <;>
      simp [Channel.recv, Channel.try_recv, hq, hs] <;> omega
  · intro E n
    have hc := createTrays_chan E (TrayManagerModel.new E) n
    have hd := dropTrays_chan E ((TrayManagerModel.new E).createTrays n) n
      (by rw [hc.2]; simp [TrayManagerModel.new]; omega)
    have hchan : (destroyAllTrays E n).chan = { queue := [], senders := 1 } := by
      unfold destroyAllTrays
      rw [hd.1, hc.1]
      rfl
    have hstrong : (destroyAllTrays E n).proxyStrong = 1 + n := by
      unfold destroyAllTrays
      rw [hd.2, hc.2]
      show (TrayManagerModel.new E).proxyStrong + 2 * n - n = 1 + n
      simp only [TrayManagerModel.new]
      omega
    refine ⟨by rw [hchan], hstrong, by rw [hchan], ?_, ?_⟩
    · rw [hchan]; rfl
    · rw [hchan]; rfl

theorem linuxIds_range (c n : Nat) : linuxIds c n = List.range' c n := by
  induction n generalizing c with
  | zero => simp [linuxIds]
  | succ n ih =>
    simp only [linuxIds, ih, LinuxTray.id, linuxTrayNew, List.range'_succ]

theorem winPopupIds_range (c : Nat) (hwnds : List Nat) :
    winPopupIds c hwnds = List.range' c hwnds.length := by
  induction hwnds generalizing c with
  | nil => simp [winPopupIds]
  | cons h rest ih =>
    simp only [winPopupIds, ih, WinPopup.id, winPopupCreate, List.length_cons,
      List.range'_succ]

/-- Counterexample to claim C6 as stated: on the Windows tray backend the
`TrayId` is the raw window handle, not the counter.  If the OS returns
handle 5 for the first tray (counter 1) and handle 3 for the second
(counter 2), the ids are 5 then 3 — not monotonically increasing — and two
trays created with the same (OS-reused) handle 7 share an id even though
their counter values differ. -/
theorem windows_tray_id_not_monotonic_counterexample :
    (winTrayCreate 5 1).1.id = 5 ∧
    (winTrayCreate 3 (winTrayCreate 5 1).2).1.id = 3 ∧
    (winTrayCreate 5 1).1.inernal_id < (winTrayCreate 3 (winTrayCreate 5 1).2).1.inernal_id ∧
    ¬ (winTrayCreate 5 1).1.id < (winTrayCreate 3 (winTrayCreate 5 1).2).1.id ∧
    (winTrayCreate 7 1).1.id = (winTrayCreate 7 3).1.id ∧
    (winTrayCreate 7 1).1.inernal_id ≠ (winTrayCreate 7 3).1.inernal_id := by
  refine ⟨rfl, rfl, by decide, by decide, rfl, by decide⟩

/-- Claim C6 amended: ids are counter-allocated and strictly increasing for
the Linux tray and the Windows popup; the Windows tray id is the raw
window handle instead. -/
theorem object_id_allocation_amended : ObjectIdAllocation := by
  have hchain : ∀ s n : Nat, (List.range' s n).Chain' (· < ·) := by
    intro s n
    induction n generalizing s with
    | zero => simp
    | succ n ih =>
      rw [List.range'_succ]
      cases n with
      | zero => simp
      | succ k =>
        rw [List.range'_succ, List.chain'_cons]
        refine ⟨by omega, ?_⟩
        rw [← List.range'_succ]
        exact ih (s + 1)
  refine ⟨linuxIds_range, ?_, winPopupIds_range, ?_, fun _ _ => rfl⟩
  · intro c n
    rw [linuxIds_range]
    exact hchain c n
  · intro c hwnds
    rw [winPopupIds_range]
    exact hchain c hwnds.length

/-- Claim C7: for every panic raised inside a construction hook during
two-phase object creation, the panic is captured and does not unwind
across the native call boundary, and it is re-raised to the caller exactly
once after the native creation call returns (not swallowed). -/
theorem construction_panic_captured_reraised : PanicCaptureReraise := by
  refine ⟨?_, ?_⟩
  · intro P T p
    exact ⟨rfl, rfl, rfl, rfl, rfl⟩
  · intro P T t
    exact ⟨rfl, rfl⟩
